import Mathlib

/-! # cgcs_ulog: composition of one log line

A shallow embedding of `cgcs_ulog` (cgcs_ulog.c) and of the declarations of
cgcs_ulog.h it uses.

* C strings are lists of characters (the characters before the terminating NUL).
* The `long double` argument `line` is an exact rational number.
* `__DATE__`, `__TIME__`, the indeterminate initial contents of the local array
  `buffer`, and the value a `long double → long long` conversion produces when
  the truncated value does not fit 64 bits, are not fixed by the source: they
  are the fields of `Env`.
* The message expanded by `vsprintf(message, fmt, args)` is an argument.
* The array `buffer` has 4096 characters: a `sprintf` that would store past its end
  has no result, and then neither have `ulog_buffer` and `cgcs_ulog`.
-/

namespace CgcsUlog

/-- C strings: the characters before the terminating NUL. -/
abbrev CStr := List Char

/-! ## Style codes (cgcs_ulog.h, lines 17-42) -/

/-- Reset to standard color/weight. -/
def KNRM : CStr := "\x1B[0;0m".toList
/-- Standard color bold. -/
def KNRM_b : CStr := "\x1B[0;1m".toList
/-- Dark grey. -/
def KGRY : CStr := "\x1B[0;2m".toList
/-- Blink every second. -/
def KBNK : CStr := "\x1B[0;5m".toList
/-- Cyan. -/
def KCYN : CStr := "\x1B[0;36m".toList
/-- Red bold. -/
def KRED_b : CStr := "\x1B[1;31m".toList
/-- Yellow bold. -/
def KYEL_b : CStr := "\x1B[1;33m".toList
/-- Magenta bold. -/
def KMAG_b : CStr := "\x1B[1;35m".toList
/-- Cyan bold. -/
def KCYN_b : CStr := "\x1B[1;36m".toList

/-! ## The visibility table (cgcs_ulog.h, lines 182-188; cgcs_ulog.c, line 13) -/

/-- The enumeration `enum ULOG_ATTRS`. -/
inductive ULOG_ATTRS where
  | DATE | TIME | LEVEL | FILENAME | LINE | FUNCTION | MESSAGE
  deriving DecidableEq

/-- The integer value of an enumerator. -/
def ULOG_ATTRS.toNat : ULOG_ATTRS → Nat
  | .DATE => 0
  | .TIME => 1
  | .LEVEL => 2
  | .FILENAME => 3
  | .LINE => 4
  | .FUNCTION => 5
  | .MESSAGE => 6

/-- The macro `UTILS_LOG_ATTRS_COUNT`. -/
def UTILS_LOG_ATTRS_COUNT : Nat := 7

/-- The initial value of the global `ulog_attrs_disable`: nothing is disabled. -/
def ulog_attrs_disable : List Bool := [false, false, false, false, false, false, false]

/-- The read `ulog_attrs_disable[a]` in a table `tbl`. -/
def disabled (tbl : List Bool) (a : ULOG_ATTRS) : Bool := tbl.getD a.toNat false

/-! ## What the source leaves to the build and the platform -/

/-- The data of a call that the source text does not determine. -/
structure Env where
  /-- The expansion of `__DATE__`. -/
  date : CStr
  /-- The expansion of `__TIME__`. -/
  time : CStr
  /-- The contents of the uninitialised array `buffer`, read as a C string. -/
  stack : CStr
  /-- The result of converting to `long long` a value whose truncation does not
  fit; it is reduced into the 64-bit range by `to_long_long`. -/
  oor : ℚ → Int

/-! ## Conversions of the C library used by cgcs_ulog -/

/-- The least `long long`. -/
def LLONG_MIN : Int := -(2 ^ 63)
/-- The greatest `long long`. -/
def LLONG_MAX : Int := 2 ^ 63 - 1

/-- Truncation toward zero. -/
def trunc (x : ℚ) : Int := if 0 ≤ x then ⌊x⌋ else ⌈x⌉

/-- Reduction of an integer into the range of `long long`. -/
def wrap64 (i : Int) : Int := (i + 2 ^ 63) % 2 ^ 64 - 2 ^ 63

/-- The cast `(long long int)(line)`: truncation toward zero when the result fits;
otherwise some `long long`, which the platform chooses. -/
def to_long_long (env : Env) (x : ℚ) : Int :=
  if LLONG_MIN ≤ trunc x ∧ trunc x ≤ LLONG_MAX then trunc x else wrap64 (env.oor x)

/-- Decimal digits of `n`, most significant first, computed with `fuel` steps. -/
def digits_fuel : Nat → Nat → CStr
  | 0, _ => []
  | fuel + 1, n =>
    if n < 10 then [Nat.digitChar n]
    else digits_fuel fuel (n / 10) ++ [Nat.digitChar (n % 10)]

/-- Decimal digits of a natural number, most significant first. -/
def nat_digits (n : Nat) : CStr := digits_fuel (n + 1) n

/-- The conversion `%lli`. -/
def fmt_lli (i : Int) : CStr :=
  if i < 0 then '-' :: nat_digits i.natAbs else nat_digits i.natAbs

/-- The quotient `n / d` rounded to the nearest integer, ties to even. -/
def round_half_even (n d : Nat) : Nat :=
  if 2 * (n % d) < d then n / d
  else if d < 2 * (n % d) then n / d + 1
  else if (n / d) % 2 = 0 then n / d else n / d + 1

/-- Left padding with `'0'` up to width `w`. -/
def pad_zeros (w : Nat) (s : CStr) : CStr := List.replicate (w - s.length) '0' ++ s

/-- The absolute value of `x` in units of `10 ^ (-prec)`, correctly rounded. -/
def scaled (prec : Nat) (x : ℚ) : Nat := round_half_even (x.num.natAbs * 10 ^ prec) x.den

/-- The digits after the decimal point in the conversion `%.<prec>Lf`. -/
def frac_digits (prec : Nat) (x : ℚ) : CStr :=
  pad_zeros prec (nat_digits (scaled prec x % 10 ^ prec))

/-- The sign and the digits before the decimal point in `%.<prec>Lf`. -/
def int_digits (prec : Nat) (x : ℚ) : CStr :=
  (if x < 0 then ['-'] else []) ++ nat_digits (scaled prec x / 10 ^ prec)

/-- The conversion `%.<prec>Lf` for `0 < prec` (`%Lf` is `%.6Lf`). -/
def fmt_Lf (prec : Nat) (x : ℚ) : CStr := int_digits prec x ++ '.' :: frac_digits prec x

/-! ## cgcs_ulog (cgcs_ulog.c, lines 27-162) -/

/-- Lines 37-71: the pair `(color, blink)` after the dispatch on `level`. -/
def level_style (level : CStr) : CStr × CStr :=
  if level = "[BUG]".toList then (KYEL_b, [])
  else if level = "[LOG]".toList then (KCYN_b, [])
  else if level = "[ERROR]".toList then (KRED_b, KBNK)
  else if level = "[WARNING]".toList then (KMAG_b, KBNK)
  else (KNRM, [])

/-- Line 42: `*file == '$'`. -/
def is_currency (file : CStr) : Bool := file.head? = some '$'

/-- Line 77: `line / (long long int)(line) == 1.000000 || line == 0.00000`.
A division by zero gives an infinity or a NaN, which is not equal to 1. -/
def ratio_test (env : Env) (line : ℚ) : Bool :=
  (to_long_long env line ≠ 0 ∧ line / (to_long_long env line : ℚ) = 1) ∨ line = 0

/-- Lines 77-78: the final value of `is_integer`. -/
def is_integer (env : Env) (file : CStr) (line : ℚ) : Bool :=
  if is_currency file then false else ratio_test env line

/-- Lines 80-85: the date segment, when it is written. -/
def date_segment (env : Env) (tbl : List Bool) : Option CStr :=
  if disabled tbl .DATE = false then some (KGRY ++ env.date ++ KNRM ++ [' ']) else none

/-- Lines 87-92: the time segment, when it is written. -/
def time_segment (env : Env) (tbl : List Bool) : Option CStr :=
  if disabled tbl .TIME = false then some (KGRY ++ env.time ++ KNRM ++ [' ']) else none

/-- Lines 94-99: the level segment, when it is written. -/
def level_segment (tbl : List Bool) (level : CStr) : Option CStr :=
  if disabled tbl .LEVEL = false then
    some ((level_style level).2 ++ (level_style level).1 ++ level ++ KNRM ++ [' '])
  else none

/-- Lines 101-136: the origin segment, when it is written. -/
def origin_segment (env : Env) (tbl : List Bool) (file : CStr) (line : ℚ) : Option CStr :=
  if disabled tbl .FILENAME = false ∧ disabled tbl .LINE = true then
    some ('[' :: file ++ "] ".toList)
  else if disabled tbl .FILENAME = true ∧ disabled tbl .LINE = false then
    if is_integer env file line then
      some ('[' :: fmt_lli (to_long_long env line) ++ "] ".toList)
    else if is_currency file then
      some ('[' :: fmt_Lf 2 line ++ "] ".toList)
    else
      some ('[' :: fmt_Lf 6 line ++ "] ".toList)
  else if disabled tbl .FILENAME = false ∧ disabled tbl .LINE = false then
    if is_integer env file line then
      some ('[' :: file ++ ':' :: fmt_lli (to_long_long env line) ++ "] ".toList)
    else if is_currency file then
      some ('[' :: file ++ fmt_Lf 2 line ++ "] ".toList)
    else
      some ('[' :: file ++ ':' :: fmt_Lf 6 line ++ "] ".toList)
  else none

/-- Lines 138-143: the function segment, when it is written. -/
def function_segment (tbl : List Bool) (func : CStr) : Option CStr :=
  if disabled tbl .FUNCTION = false then some (KCYN ++ func) else none

/-- Lines 145-148: the separating space, when it is written. -/
def separator_segment (tbl : List Bool) : Option CStr :=
  if disabled tbl .FUNCTION = false ∧ disabled tbl .MESSAGE = false then some [' '] else none

/-- Lines 150-159: the message segment, when it is written; `message` is the
expansion of `fmt` against the variadic arguments. -/
def message_segment (tbl : List Bool) (message : CStr) : Option CStr :=
  if disabled tbl .MESSAGE = false then some (KNRM_b ++ message ++ KNRM) else none

/-! ## Array sizes (cgcs_ulog.c, lines 34, 81-151) -/

/-- The size of `buffer` and of `message`. -/
def BUFFER_SIZE : Nat := 4096

/-- The size of `date`, `time`, `leveltype`, `filename`, `linenumber`, `fileline`
and `function`. -/
def FIELD_SIZE : Nat := 1024

/-- A C string fits an array of `size` characters, terminator included. -/
def fits (size : Nat) (s : CStr) : Prop := s.length + 1 ≤ size

/-! ## The line buffer (cgcs_ulog.c, lines 34, 44, 84-158) -/

/-- The array `buffer` read as a C string, with the write offset `j`. -/
structure LineBuf where
  buffer : CStr
  j : Nat

/-- The statement `j += sprintf(buffer + j, "%s", s)`: the characters of `s` and the
terminator are stored from offset `j`. There is no result when they do not fit the
`BUFFER_SIZE` characters of the array: the write runs past its end. -/
def LineBuf.sprintf (b : LineBuf) (s : CStr) : Option LineBuf :=
  if b.j + s.length + 1 ≤ BUFFER_SIZE then some ⟨b.buffer.take b.j ++ s, b.j + s.length⟩
  else none

/-- A guarded write: nothing happens when the guard of the segment fails. -/
def LineBuf.emit (b : LineBuf) : Option CStr → Option LineBuf
  | none => some b
  | some s => b.sprintf s

/-- The guarded writes of a list of segments, in order, while each one fits. -/
def LineBuf.emit_all (b : LineBuf) : List (Option CStr) → Option LineBuf
  | [] => some b
  | o :: r =>
    match b.emit o with
    | none => none
    | some b' => b'.emit_all r

/-- The segments in the order of the source. -/
def segments (env : Env) (tbl : List Bool) (level file func : CStr) (line : ℚ)
    (message : CStr) : List (Option CStr) :=
  [date_segment env tbl, time_segment env tbl, level_segment tbl level,
   origin_segment env tbl file line, function_segment tbl func,
   separator_segment tbl, message_segment tbl message]

/-- The state of `buffer` and `j` at line 161, when every write fitted the array. -/
def ulog_buffer (env : Env) (tbl : List Bool) (level file func : CStr) (line : ℚ)
    (message : CStr) : Option LineBuf :=
  (⟨env.stack, 0⟩ : LineBuf).emit_all (segments env tbl level file func line message)

/-- The text that line 161 passes to the stream: `buffer` and a newline. -/
def cgcs_ulog (env : Env) (tbl : List Bool) (level file func : CStr) (line : ℚ)
    (message : CStr) : Option CStr :=
  (ulog_buffer env tbl level file func line message).map fun b => b.buffer ++ ['\n']

/-! ## The vocabulary of the specification -/

/-- The classifier modes. -/
inductive Mode where
  | Integer | Currency | Fractional
  deriving DecidableEq

/-- The mode selected by `is_integer` and `is_currency`. -/
def classify (env : Env) (file : CStr) (line : ℚ) : Mode :=
  if is_integer env file line then .Integer
  else if is_currency file then .Currency
  else .Fractional

/-- The line value rendered per mode. -/
def render (env : Env) (line : ℚ) : Mode → CStr
  | .Integer => fmt_lli (to_long_long env line)
  | .Currency => fmt_Lf 2 line
  | .Fractional => fmt_Lf 6 line

/-- The value of a run of decimal digits. -/
def dec_value (s : CStr) : Nat := s.foldl (fun a c => 10 * a + (c.toNat - 48)) 0

/-- A character is one of `0` to `9`. -/
def is_dec_digit (c : Char) : Prop := c ∈ "0123456789".toList

/-- The integer denoted by an optional minus sign and a run of digits. -/
def int_value : CStr → Int
  | '-' :: s => -(dec_value s : Int)
  | s => (dec_value s : Int)

/-- A fixed-point numeral with `k` decimals that denotes `x` rounded to `k` decimals:
an optional minus sign, a run of digits, a point, and exactly `k` digits. -/
def is_fixed_point (k : Nat) (x : ℚ) (s : CStr) : Prop :=
  ∃ ip fp : CStr, s = (if x < 0 then ['-'] else []) ++ ip ++ '.' :: fp ∧
    ip ≠ [] ∧ (∀ c ∈ ip, is_dec_digit c) ∧ fp.length = k ∧ (∀ c ∈ fp, is_dec_digit c) ∧
    |((dec_value ip * 10 ^ k + dec_value fp : Nat) : ℚ) - |x| * 10 ^ k| ≤ 1 / 2

/-- The concatenation of the segments that are written. -/
def concat_written : List (Option CStr) → CStr
  | [] => []
  | none :: r => concat_written r
  | some s :: r => s ++ concat_written r

/-! ## The toggle macro (cgcs_ulog.h, lines 186-188) -/

/-- The macro `ULOG_TOGGLE_ATTR(a)`:
`ulog_attrs_disable[a] = (ulog_attrs_disable[a]) ? (false) : (true)`. -/
def ULOG_TOGGLE_ATTR (tbl : List Bool) (a : ULOG_ATTRS) : List Bool :=
  tbl.set a.toNat (if disabled tbl a = true then false else true)

/-! ## The stream (cgcs_ulog.c, line 161) -/

/-- A destination stream: the characters it has received, and, when its next
write fails, the number `k` such that the write reports `-(k + 1)`. -/
structure FILE where
  received : CStr
  failure : Option Nat

/-- The call `fprintf(dest, "%s\n", buffer)` on the text `buffer ++ "\n"`: the stream
after the call and the value returned, the number of characters transmitted or a
negative value. -/
def fprintf (dest : FILE) (text : CStr) : FILE × Int :=
  match dest.failure with
  | none => (⟨dest.received ++ text, none⟩, (text.length : Int))
  | some k => (dest, Int.negSucc k)

/-- The function cgcs_ulog with its stream: the stream after the call and the value
returned by line 161. -/
def cgcs_ulog_to (dest : FILE) (env : Env) (tbl : List Bool) (level file func : CStr)
    (line : ℚ) (message : CStr) : Option (FILE × Int) :=
  (cgcs_ulog env tbl level file func line message).map (fprintf dest)

/-! ## The wrappers (cgcs_ulog.h, lines 128-180) -/

/-- The line of `LOG(FILEMACRO, ...)` at source line `LINE` in function `func`. -/
def LOG (env : Env) (tbl : List Bool) (FILEMACRO func : CStr) (LINE : Nat)
    (message : CStr) : Option CStr :=
  cgcs_ulog env tbl "[LOG]".toList FILEMACRO func ((LINE : Int) : ℚ) message

/-- Every intermediate array holds what the call writes to it. -/
def fields_fit (env : Env) (tbl : List Bool) (level file func : CStr) (line : ℚ)
    (message : CStr) : Prop :=
  fits FIELD_SIZE ((date_segment env tbl).getD []) ∧
  fits FIELD_SIZE ((time_segment env tbl).getD []) ∧
  fits FIELD_SIZE ((level_segment tbl level).getD []) ∧
  fits FIELD_SIZE ((origin_segment env tbl file line).getD []) ∧
  fits FIELD_SIZE ((function_segment tbl func).getD []) ∧
  fits BUFFER_SIZE message

/-! ## Style codes in a line -/

/-- The characters of an escape sequence after its first, up to the closing `m`. -/
def take_code : CStr → CStr
  | [] => []
  | c :: r => if c = 'm' then [c] else c :: take_code r

/-- The last escape sequence of a text, from the escape character to the next `m`. -/
def last_style_code : CStr → Option CStr
  | [] => none
  | c :: r =>
    match last_style_code r with
    | some k => some k
    | none => if c = '\x1B' then some (c :: take_code r) else none

/-- The table after `ULOG_TOGGLE_ATTR(MESSAGE)`: only the message is disabled. -/
def message_disabled : List Bool := [false, false, false, false, false, false, true]

/-- The table after all seven attributes have been toggled once. -/
def all_disabled : List Bool := [true, true, true, true, true, true, true]

/-- An environment whose uninitialised buffer holds the text `junk`. -/
def env_junk : Env := ⟨"Dec  9 2020".toList, "12:00:00".toList, "junk".toList, fun _ => LLONG_MIN⟩

/-- An environment for the examples. -/
def env0 : Env := ⟨"Dec  9 2020".toList, "12:00:00".toList, [], fun _ => LLONG_MIN⟩

/-! # Lemmas -/

/-! ## Decimal digits -/

theorem digitChar_is_dec_digit {d : Nat} (h : d < 10) : is_dec_digit (Nat.digitChar d) := by
  unfold is_dec_digit
  interval_cases d <;> decide

theorem digitChar_toNat {d : Nat} (h : d < 10) : (Nat.digitChar d).toNat - 48 = d := by
  interval_cases d <;> decide

theorem dec_value_append_single (s : CStr) (c : Char) :
    dec_value (s ++ [c]) = 10 * dec_value s + (c.toNat - 48) := by
  simp [dec_value, List.foldl_append]

theorem digits_fuel_spec (fuel : Nat) : ∀ n : Nat, n < fuel →
    digits_fuel fuel n ≠ [] ∧ (∀ c ∈ digits_fuel fuel n, is_dec_digit c) ∧
      dec_value (digits_fuel fuel n) = n ∧
      ∀ k : Nat, n < 10 ^ (k + 1) → (digits_fuel fuel n).length ≤ k + 1 := by
  induction fuel with
  | zero => intro n h; omega
  | succ fuel ih =>
    intro n hn
    by_cases h10 : n < 10
    · have hd : digits_fuel (fuel + 1) n = [Nat.digitChar n] := by simp [digits_fuel, h10]
      rw [hd]
      refine ⟨by simp, ?_, ?_, ?_⟩
      · intro c hc
        rw [List.mem_singleton] at hc
        rw [hc]
        exact digitChar_is_dec_digit h10
      · simp [dec_value, digitChar_toNat h10]
      · intro k _
        simp
    · have hd : digits_fuel (fuel + 1) n =
          digits_fuel fuel (n / 10) ++ [Nat.digitChar (n % 10)] := by
        simp [digits_fuel, h10]
      have hlt : n / 10 < fuel := by omega
      obtain ⟨_, hdig, hval, hlen⟩ := ih (n / 10) hlt
      have hm : n % 10 < 10 := Nat.mod_lt _ (by decide)
      rw [hd]
      refine ⟨by simp, ?_, ?_, ?_⟩
      · intro c hc
        rw [List.mem_append, List.mem_singleton] at hc
        rcases hc with hc | hc
        · exact hdig c hc
        · rw [hc]
          exact digitChar_is_dec_digit hm
      · rw [dec_value_append_single, hval, digitChar_toNat hm]
        omega
      · intro k hk
        cases k with
        | zero => omega
        | succ k =>
          have : n / 10 < 10 ^ (k + 1) := by
            rw [Nat.div_lt_iff_lt_mul (by decide)]
            calc n < 10 ^ (k + 1 + 1) := hk
              _ = 10 ^ (k + 1) * 10 := by ring
          have := hlen k this
          simp
          omega

theorem nat_digits_ne_nil (n : Nat) : nat_digits n ≠ [] :=
  (digits_fuel_spec (n + 1) n (Nat.lt_succ_self n)).1

theorem nat_digits_is_dec_digit (n : Nat) : ∀ c ∈ nat_digits n, is_dec_digit c :=
  (digits_fuel_spec (n + 1) n (Nat.lt_succ_self n)).2.1

theorem dec_value_nat_digits (n : Nat) : dec_value (nat_digits n) = n :=
  (digits_fuel_spec (n + 1) n (Nat.lt_succ_self n)).2.2.1

theorem nat_digits_length_le (n k : Nat) (h : n < 10 ^ (k + 1)) :
    (nat_digits n).length ≤ k + 1 :=
  (digits_fuel_spec (n + 1) n (Nat.lt_succ_self n)).2.2.2 k h

theorem is_dec_digit_ne_point {c : Char} (h : is_dec_digit c) : c ≠ '.' := by
  intro hc
  rw [hc] at h
  revert h
  unfold is_dec_digit
  decide

theorem is_dec_digit_ne_minus {c : Char} (h : is_dec_digit c) : c ≠ '-' := by
  intro hc
  rw [hc] at h
  revert h
  unfold is_dec_digit
  decide

theorem point_not_mem_nat_digits (n : Nat) : '.' ∉ nat_digits n := fun h =>
  is_dec_digit_ne_point (nat_digits_is_dec_digit n _ h) rfl

theorem point_not_mem_fmt_lli (i : Int) : '.' ∉ fmt_lli i := by
  unfold fmt_lli
  split
  · intro h
    rw [List.mem_cons] at h
    rcases h with h | h
    · revert h; decide
    · exact point_not_mem_nat_digits _ h
  · exact point_not_mem_nat_digits _

theorem int_value_fmt_lli (i : Int) : int_value (fmt_lli i) = i := by
  unfold fmt_lli
  split
  · next h =>
    simp only [int_value, dec_value_nat_digits]
    omega
  · next h =>
    have hne : ∀ s : CStr, s.head? ≠ some '-' → int_value s = (dec_value s : Int) := by
      intro s hs
      unfold int_value
      split
      · simp at hs
      · rfl
    rw [hne, dec_value_nat_digits]
    · omega
    · intro hh
      cases hs : nat_digits i.natAbs with
      | nil => exact nat_digits_ne_nil _ hs
      | cons c r =>
        rw [hs] at hh
        simp only [List.head?_cons, Option.some.injEq] at hh
        have := nat_digits_is_dec_digit i.natAbs c (by rw [hs]; simp)
        exact is_dec_digit_ne_minus this hh

theorem pad_zeros_length {w : Nat} {s : CStr} (h : s.length ≤ w) :
    (pad_zeros w s).length = w := by
  simp [pad_zeros]
  omega

theorem pad_zeros_is_dec_digit {w : Nat} {s : CStr} (h : ∀ c ∈ s, is_dec_digit c) :
    ∀ c ∈ pad_zeros w s, is_dec_digit c := by
  intro c hc
  simp only [pad_zeros, List.mem_append, List.mem_replicate] at hc
  rcases hc with ⟨_, hc⟩ | hc
  · rw [hc]; unfold is_dec_digit; decide
  · exact h c hc

theorem frac_digits_length (prec : Nat) (x : ℚ) (hp : 0 < prec) :
    (frac_digits prec x).length = prec := by
  unfold frac_digits
  apply pad_zeros_length
  obtain ⟨k, rfl⟩ : ∃ k, prec = k + 1 := ⟨prec - 1, by omega⟩
  exact nat_digits_length_le _ k (Nat.mod_lt _ (by positivity))

theorem frac_digits_is_dec_digit (prec : Nat) (x : ℚ) :
    ∀ c ∈ frac_digits prec x, is_dec_digit c :=
  pad_zeros_is_dec_digit (nat_digits_is_dec_digit _)

theorem point_not_mem_int_digits (prec : Nat) (x : ℚ) : '.' ∉ int_digits prec x := by
  unfold int_digits
  intro h
  rw [List.mem_append] at h
  rcases h with h | h
  · split at h
    · revert h; decide
    · simp at h
  · exact point_not_mem_nat_digits _ h

/-! ## Rounding -/

theorem round_half_even_near (n d : Nat) (hd : 0 < d) :
    2 * n ≤ (2 * round_half_even n d + 1) * d ∧ 2 * round_half_even n d * d ≤ 2 * n + d := by
  have hdiv : d * (n / d) + n % d = n := Nat.div_add_mod n d
  have hmod : n % d < d := Nat.mod_lt n hd
  unfold round_half_even
  generalize n / d = q at hdiv ⊢
  generalize n % d = r at hdiv hmod ⊢
  have e1 : (2 * q + 1) * d = 2 * (d * q) + d := by ring
  have e2 : 2 * q * d = 2 * (d * q) := by ring
  have e3 : (2 * (q + 1) + 1) * d = 2 * (d * q) + 3 * d := by ring
  have e4 : 2 * (q + 1) * d = 2 * (d * q) + 2 * d := by ring
  split_ifs <;> simp only [e1, e2, e3, e4] <;> constructor <;> omega

theorem abs_eq_natAbs_div (x : ℚ) : |x| = (x.num.natAbs : ℚ) / (x.den : ℚ) := by
  have hden : (0 : ℚ) < x.den := by exact_mod_cast x.den_pos
  conv_lhs => rw [← Rat.num_div_den x]
  rw [abs_div, abs_of_pos hden, Nat.cast_natAbs, Int.cast_abs]

/-- The rounded scaled value is within one half of the exact scaled value. -/
theorem scaled_near (prec : Nat) (x : ℚ) :
    |(scaled prec x : ℚ) - |x| * 10 ^ prec| ≤ 1 / 2 := by
  have hden : (0 : ℚ) < x.den := by exact_mod_cast x.den_pos
  obtain ⟨h1, h2⟩ := round_half_even_near (x.num.natAbs * 10 ^ prec) x.den x.den_pos
  have h1q : (2 : ℚ) * (x.num.natAbs * 10 ^ prec) ≤ (2 * scaled prec x + 1) * x.den := by
    unfold scaled
    exact_mod_cast h1
  have h2q : (2 : ℚ) * scaled prec x * x.den ≤ 2 * (x.num.natAbs * 10 ^ prec) + x.den := by
    unfold scaled
    exact_mod_cast h2
  have hx : |x| * 10 ^ prec * x.den = x.num.natAbs * 10 ^ prec := by
    rw [abs_eq_natAbs_div]
    field_simp
  rw [abs_le]
  constructor
  · have : ((scaled prec x : ℚ) - |x| * 10 ^ prec + 1 / 2) * x.den ≥ 0 := by nlinarith
    nlinarith [this]
  · have : (1 / 2 - ((scaled prec x : ℚ) - |x| * 10 ^ prec)) * x.den ≥ 0 := by nlinarith
    nlinarith [this]

/-! ## Truncation and the ratio test -/

theorem trunc_intCast (n : Int) : trunc (n : ℚ) = n := by
  unfold trunc
  split <;> simp

theorem trunc_eq_zero {x : ℚ} (h : |x| < 1) : trunc x = 0 := by
  rw [abs_lt] at h
  unfold trunc
  split
  · next h0 => rw [Int.floor_eq_zero_iff]; exact ⟨h0, h.2⟩
  · next h0 =>
    rw [Int.ceil_eq_zero_iff]
    constructor
    · simpa using h.1
    · push_neg at h0; exact h0.le

theorem wrap64_range (i : Int) : LLONG_MIN ≤ wrap64 i ∧ wrap64 i ≤ LLONG_MAX := by
  unfold wrap64 LLONG_MIN LLONG_MAX
  constructor <;> omega

theorem to_long_long_range (env : Env) (x : ℚ) :
    LLONG_MIN ≤ to_long_long env x ∧ to_long_long env x ≤ LLONG_MAX := by
  unfold to_long_long
  split
  · next h => exact h
  · exact wrap64_range _

theorem to_long_long_of_fits (env : Env) {x : ℚ}
    (h : LLONG_MIN ≤ trunc x ∧ trunc x ≤ LLONG_MAX) : to_long_long env x = trunc x := by
  unfold to_long_long
  rw [if_pos h]

theorem ratio_test_iff (env : Env) (line : ℚ) :
    ratio_test env line = true ↔
      (to_long_long env line ≠ 0 ∧ line = (to_long_long env line : ℚ)) ∨ line = 0 := by
  unfold ratio_test
  simp only [decide_eq_true_eq]
  constructor
  · rintro (⟨h0, h1⟩ | h)
    · left
      refine ⟨h0, ?_⟩
      have hq : (to_long_long env line : ℚ) ≠ 0 := by exact_mod_cast h0
      field_simp at h1
      exact h1
    · right; exact h
  · rintro (⟨h0, h1⟩ | h)
    · left
      refine ⟨h0, ?_⟩
      have hq : (to_long_long env line : ℚ) ≠ 0 := by exact_mod_cast h0
      rw [div_eq_one_iff_eq hq]
      exact h1
    · right; exact h

/-- Within the range of `long long`, the ratio test holds exactly for whole numbers. -/
theorem ratio_test_of_fits (env : Env) {line : ℚ}
    (h : LLONG_MIN ≤ trunc line ∧ trunc line ≤ LLONG_MAX) :
    ratio_test env line = true ↔ ∃ n : Int, line = (n : ℚ) := by
  rw [ratio_test_iff]
  constructor
  · rintro (⟨_, h1⟩ | h0)
    · exact ⟨_, h1⟩
    · exact ⟨0, by simp [h0]⟩
  · rintro ⟨n, rfl⟩
    rw [to_long_long_of_fits env h, trunc_intCast]
    by_cases hn : n = 0
    · right; simp [hn]
    · left; exact ⟨hn, rfl⟩

/-- A value with a fractional part fails the ratio test, whatever the cast gives. -/
theorem ratio_test_of_not_whole (env : Env) {line : ℚ} (h : ¬ ∃ n : Int, line = (n : ℚ)) :
    ratio_test env line = false := by
  rw [← Bool.not_eq_true, ratio_test_iff]
  rintro (⟨_, h1⟩ | h0)
  · exact h ⟨_, h1⟩
  · exact h ⟨0, by simp [h0]⟩

/-- A whole number outside the range of `long long` fails the ratio test. -/
theorem ratio_test_of_not_fits (env : Env) {line : ℚ} (h0 : line ≠ 0)
    (h : ¬ (LLONG_MIN ≤ trunc line ∧ trunc line ≤ LLONG_MAX)) :
    ratio_test env line = false := by
  rw [← Bool.not_eq_true, ratio_test_iff]
  rintro (⟨_, h1⟩ | h1)
  · apply h
    have := to_long_long_range env line
    rw [h1, trunc_intCast]
    exact this
  · exact h0 h1

/-! ## Fixed-point numerals -/

theorem dec_value_append (s t : CStr) :
    dec_value (s ++ t) = t.foldl (fun a c => 10 * a + (c.toNat - 48)) (dec_value s) := by
  simp [dec_value, List.foldl_append]

theorem dec_value_zeros (k : Nat) : dec_value (List.replicate k '0') = 0 := by
  induction k with
  | zero => rfl
  | succ k ih =>
    rw [List.replicate_succ', dec_value_append_single, ih]
    rfl

theorem dec_value_pad_zeros (w : Nat) (s : CStr) : dec_value (pad_zeros w s) = dec_value s := by
  unfold pad_zeros
  rw [dec_value_append, dec_value_zeros]
  rfl

theorem fmt_Lf_is_fixed_point (k : Nat) (hk : 0 < k) (x : ℚ) :
    is_fixed_point k x (fmt_Lf k x) := by
  refine ⟨nat_digits (scaled k x / 10 ^ k), frac_digits k x, rfl, nat_digits_ne_nil _,
    nat_digits_is_dec_digit _, frac_digits_length k x hk, frac_digits_is_dec_digit k x, ?_⟩
  have hv : dec_value (nat_digits (scaled k x / 10 ^ k)) * 10 ^ k + dec_value (frac_digits k x)
      = scaled k x := by
    unfold frac_digits
    rw [dec_value_pad_zeros, dec_value_nat_digits, dec_value_nat_digits]
    exact Nat.div_add_mod' _ _
  rw [hv]
  exact scaled_near k x

theorem point_mem_fmt_Lf (k : Nat) (x : ℚ) : '.' ∈ fmt_Lf k x := by
  simp [fmt_Lf]

/-! ## The line buffer -/

theorem sprintf_fits (b : LineBuf) (s : CStr) (h : b.j + s.length + 1 ≤ BUFFER_SIZE) :
    b.sprintf s = some ⟨b.buffer.take b.j ++ s, b.j + s.length⟩ := by
  unfold LineBuf.sprintf
  rw [if_pos h]

theorem sprintf_overrun (b : LineBuf) (s : CStr) (h : ¬ b.j + s.length + 1 ≤ BUFFER_SIZE) :
    b.sprintf s = none := by
  unfold LineBuf.sprintf
  rw [if_neg h]

/-- From a buffer that holds `j` characters: the segments are appended when the whole
fits the array, and otherwise some write runs past its end. -/
theorem emit_all_of_full (segs : List (Option CStr)) :
    ∀ b : LineBuf, b.buffer.take b.j = b.buffer → b.j + 1 ≤ BUFFER_SIZE →
      b.emit_all segs =
        if b.j + (concat_written segs).length + 1 ≤ BUFFER_SIZE then
          some ⟨b.buffer ++ concat_written segs, b.j + (concat_written segs).length⟩
        else none := by
  induction segs with
  | nil =>
    intro b _ hj
    simp [LineBuf.emit_all, concat_written, hj]
  | cons o r ih =>
    intro b hb hj
    cases o with
    | none => simpa [LineBuf.emit_all, LineBuf.emit, concat_written] using ih b hb hj
    | some s =>
      by_cases hs : b.j + s.length + 1 ≤ BUFFER_SIZE
      · have htake : (b.buffer.take b.j ++ s).take (b.j + s.length) = b.buffer.take b.j ++ s := by
          apply List.take_of_length_le
          simp only [List.length_append, List.length_take]
          omega
        have hstep := ih ⟨b.buffer.take b.j ++ s, b.j + s.length⟩ htake hs
        rw [hb] at hstep
        dsimp only at hstep
        simp only [LineBuf.emit_all, LineBuf.emit, sprintf_fits b s hs, hb, concat_written,
          List.length_append]
        rw [hstep]
        simp only [List.append_assoc, Nat.add_assoc]
      · have hno : ¬ b.j + (s ++ concat_written r).length + 1 ≤ BUFFER_SIZE := by
          simp only [List.length_append]
          omega
        simp only [LineBuf.emit_all, LineBuf.emit, sprintf_overrun b s hs, concat_written,
          if_neg hno]

/-- From the uninitialised buffer: what was there when nothing is written; the
segments written, in order, when they fit the array; no result otherwise. -/
theorem emit_all_from_stack (segs : List (Option CStr)) (stack : CStr) :
    (⟨stack, 0⟩ : LineBuf).emit_all segs =
      if segs.any Option.isSome then
        if (concat_written segs).length + 1 ≤ BUFFER_SIZE then
          some ⟨concat_written segs, (concat_written segs).length⟩
        else none
      else some ⟨stack, 0⟩ := by
  induction segs with
  | nil => simp [LineBuf.emit_all]
  | cons o r ih =>
    cases o with
    | none => simpa [LineBuf.emit_all, LineBuf.emit, concat_written] using ih
    | some s =>
      by_cases hs : s.length + 1 ≤ BUFFER_SIZE
      · have hs0 : (⟨stack, 0⟩ : LineBuf).j + s.length + 1 ≤ BUFFER_SIZE := by simpa using hs
        have hstep := emit_all_of_full r ⟨s, s.length⟩ (List.take_of_length_le (le_refl _)) hs
        simp only [LineBuf.emit_all, LineBuf.emit, sprintf_fits _ s hs0, concat_written,
          List.length_append, List.any_cons, Option.isSome_some, Bool.true_or, if_true]
        simpa using hstep
      · have hs0 : ¬ (⟨stack, 0⟩ : LineBuf).j + s.length + 1 ≤ BUFFER_SIZE := by simpa using hs
        have hno : ¬ (s ++ concat_written r).length + 1 ≤ BUFFER_SIZE := by
          simp only [List.length_append]
          omega
        simp only [LineBuf.emit_all, LineBuf.emit, sprintf_overrun _ s hs0, concat_written,
          List.any_cons, Option.isSome_some, Bool.true_or, if_true, if_neg hno]

/-- The buffer at line 161, in every case. -/
theorem ulog_buffer_eq (env : Env) (tbl : List Bool) (level file func : CStr) (line : ℚ)
    (message : CStr) :
    ulog_buffer env tbl level file func line message =
      if (segments env tbl level file func line message).any Option.isSome then
        if (concat_written (segments env tbl level file func line message)).length + 1
            ≤ BUFFER_SIZE then
          some ⟨concat_written (segments env tbl level file func line message),
            (concat_written (segments env tbl level file func line message)).length⟩
        else none
      else some ⟨env.stack, 0⟩ := by
  unfold ulog_buffer
  exact emit_all_from_stack _ _

theorem cgcs_ulog_of_written (env : Env) (tbl : List Bool) (level file func : CStr) (line : ℚ)
    (message : CStr)
    (h : (segments env tbl level file func line message).any Option.isSome = true)
    (hfit : fits BUFFER_SIZE (concat_written (segments env tbl level file func line message))) :
    cgcs_ulog env tbl level file func line message =
      some (concat_written (segments env tbl level file func line message) ++ ['\n']) := by
  unfold fits at hfit
  unfold cgcs_ulog
  rw [ulog_buffer_eq, if_pos h, if_pos hfit]
  rfl

theorem cgcs_ulog_of_overrun (env : Env) (tbl : List Bool) (level file func : CStr) (line : ℚ)
    (message : CStr)
    (h : (segments env tbl level file func line message).any Option.isSome = true)
    (hfit : ¬ fits BUFFER_SIZE (concat_written (segments env tbl level file func line message))) :
    cgcs_ulog env tbl level file func line message = none := by
  unfold fits at hfit
  unfold cgcs_ulog
  rw [ulog_buffer_eq, if_pos h, if_neg hfit]
  rfl

theorem cgcs_ulog_of_nothing_written (env : Env) (tbl : List Bool) (level file func : CStr)
    (line : ℚ) (message : CStr)
    (h : (segments env tbl level file func line message).any Option.isSome = false) :
    cgcs_ulog env tbl level file func line message = some (env.stack ++ ['\n']) := by
  unfold cgcs_ulog
  rw [ulog_buffer_eq, h]
  rfl

/-! ## Classification and the origin segment -/

theorem trunc_two_pow_63 : trunc ((2 : ℚ) ^ 63) = 2 ^ 63 := by
  have h : ((2 : ℚ) ^ 63) = (((2 : Int) ^ 63 : Int) : ℚ) := by push_cast; rfl
  rw [h, trunc_intCast]

/-- The ratio test holds exactly for the whole numbers that fit a `long long`. -/
theorem ratio_test_iff_whole_fits (env : Env) (line : ℚ) :
    ratio_test env line = true ↔
      ∃ n : Int, line = (n : ℚ) ∧ LLONG_MIN ≤ n ∧ n ≤ LLONG_MAX := by
  constructor
  · intro h
    rcases (ratio_test_iff env line).1 h with ⟨_, h1⟩ | h0
    · exact ⟨_, h1, to_long_long_range env line⟩
    · exact ⟨0, by simp [h0], by decide, by decide⟩
  · rintro ⟨n, rfl, hmin, hmax⟩
    have hfit : LLONG_MIN ≤ trunc (n : ℚ) ∧ trunc (n : ℚ) ≤ LLONG_MAX := by
      rw [trunc_intCast]; exact ⟨hmin, hmax⟩
    exact (ratio_test_of_fits env hfit).2 ⟨n, rfl⟩

/-- A decimal point splits a numeral in one way only. -/
theorem split_at_point_unique : ∀ (a a' f f' : CStr), '.' ∉ a → '.' ∉ a' →
    a ++ '.' :: f = a' ++ '.' :: f' → f = f' := by
  intro a
  induction a with
  | nil =>
    intro a' f f' _ ha' h
    cases a' with
    | nil => simpa using h
    | cons c r =>
      simp only [List.nil_append, List.cons_append, List.cons.injEq] at h
      exact absurd (by rw [← h.1]; exact List.mem_cons_self _ _) ha'
  | cons c r ih =>
    intro a' f f' ha ha' h
    cases a' with
    | nil =>
      simp only [List.nil_append, List.cons_append, List.cons.injEq] at h
      exact absurd (by rw [h.1]; exact List.mem_cons_self _ _) ha
    | cons c' r' =>
      simp only [List.cons_append, List.cons.injEq] at h
      exact ih r' f f' (fun hm => ha (List.mem_cons_of_mem _ hm))
        (fun hm => ha' (List.mem_cons_of_mem _ hm)) h.2

/-- The renderings with 2 and with 6 decimals are never the same text. -/
theorem fmt_Lf_two_ne_six (x : ℚ) : fmt_Lf 2 x ≠ fmt_Lf 6 x := by
  intro h
  have hf := split_at_point_unique _ _ _ _ (point_not_mem_int_digits 2 x)
    (point_not_mem_int_digits 6 x) h
  have h2 := frac_digits_length 2 x (by decide)
  have h6 := frac_digits_length 6 x (by decide)
  rw [hf, h6] at h2
  exact absurd h2 (by decide)

theorem not_whole_of_den {x : ℚ} (h : x.den ≠ 1) : ¬ ∃ n : Int, x = (n : ℚ) := by
  rintro ⟨n, rfl⟩
  exact h (Rat.den_intCast n)

/-- The origin segment for a whole number that fits a `long long`. -/
theorem origin_segment_of_whole (env : Env) (tbl : List Bool) (file : CStr) (n : Int)
    (hmin : LLONG_MIN ≤ n) (hmax : n ≤ LLONG_MAX)
    (hc : is_currency file = false) (hL : disabled tbl .LINE = false) :
    origin_segment env tbl file (n : ℚ) =
      some ('[' :: (if disabled tbl .FILENAME = true then [] else file ++ [':']) ++
        fmt_lli n ++ "] ".toList) := by
  have hfit : LLONG_MIN ≤ trunc (n : ℚ) ∧ trunc (n : ℚ) ≤ LLONG_MAX := by
    rw [trunc_intCast]; exact ⟨hmin, hmax⟩
  have hr : ratio_test env (n : ℚ) = true := (ratio_test_of_fits env hfit).2 ⟨n, rfl⟩
  have ht : to_long_long env (n : ℚ) = n := by
    rw [to_long_long_of_fits env hfit, trunc_intCast]
  unfold origin_segment is_integer
  simp only [hc, hL, hr, ht]
  cases disabled tbl .FILENAME <;> simp

theorem origin_segment_isSome (env : Env) (tbl : List Bool) (file : CStr) (line : ℚ)
    (h : disabled tbl .FILENAME = false ∨ disabled tbl .LINE = false) :
    (origin_segment env tbl file line).isSome = true := by
  unfold origin_segment
  cases hF : disabled tbl .FILENAME <;> cases hL : disabled tbl .LINE <;>
    cases is_integer env file line <;> cases is_currency file <;> simp_all

/-- Some segment is written exactly when some attribute is visible. -/
theorem segments_any_written (env : Env) (tbl : List Bool) (level file func : CStr)
    (line : ℚ) (message : CStr) :
    (segments env tbl level file func line message).any Option.isSome = true ↔
      ∃ a : ULOG_ATTRS, disabled tbl a = false := by
  constructor
  · intro h
    by_contra hno
    push_neg at hno
    have hd : ∀ a, disabled tbl a = true := fun a => by simpa using hno a
    simp [segments, date_segment, time_segment, level_segment, origin_segment,
      function_segment, separator_segment, message_segment, hd] at h
  · rintro ⟨a, ha⟩
    have ho := origin_segment_isSome env tbl file line
    cases a
    · simp [segments, date_segment, ha]
    · simp [segments, time_segment, ha]
    · simp [segments, level_segment, ha]
    · simp [segments, ho (Or.inl ha)]
    · simp [segments, ho (Or.inr ha)]
    · simp [segments, function_segment, ha]
    · simp [segments, message_segment, ha]

/-- The concatenation of the seven segments, spelled out. -/
theorem concat_written_seven (a b c d e f g : Option CStr) :
    concat_written [a, b, c, d, e, f, g] =
      a.getD [] ++ b.getD [] ++ c.getD [] ++ d.getD [] ++ e.getD [] ++ f.getD [] ++
        g.getD [] := by
  cases a <;> cases b <;> cases c <;> cases d <;> cases e <;> cases f <;> cases g <;>
    simp [concat_written]

/-! ## The toggle -/

theorem toNat_injective {a b : ULOG_ATTRS} (h : a.toNat = b.toNat) : a = b := by
  cases a <;> cases b <;> first | rfl | exact absurd h (by decide)

theorem toNat_lt (a : ULOG_ATTRS) : a.toNat < UTILS_LOG_ATTRS_COUNT := by
  cases a <;> decide

theorem toggle_length (tbl : List Bool) (a : ULOG_ATTRS) :
    (ULOG_TOGGLE_ATTR tbl a).length = tbl.length := by
  simp [ULOG_TOGGLE_ATTR]

theorem toggle_same (tbl : List Bool) (a : ULOG_ATTRS)
    (h : tbl.length = UTILS_LOG_ATTRS_COUNT) :
    disabled (ULOG_TOGGLE_ATTR tbl a) a = !disabled tbl a := by
  have hlt : a.toNat < tbl.length := h ▸ toNat_lt a
  unfold ULOG_TOGGLE_ATTR
  cases hd : disabled tbl a <;> simp [disabled, hlt]

theorem toggle_other (tbl : List Bool) {a b : ULOG_ATTRS} (h : b ≠ a) :
    disabled (ULOG_TOGGLE_ATTR tbl a) b = disabled tbl b := by
  have hne : a.toNat ≠ b.toNat := fun e => h (toNat_injective e).symm
  simp [ULOG_TOGGLE_ATTR, disabled, hne]

theorem toggle_toggle (tbl : List Bool) (a : ULOG_ATTRS) :
    ULOG_TOGGLE_ATTR (ULOG_TOGGLE_ATTR tbl a) a = tbl := by
  by_cases hlt : a.toNat < tbl.length
  · apply List.ext_getElem
    · simp [ULOG_TOGGLE_ATTR]
    · intro i h1 h2
      by_cases hi : a.toNat = i
      · subst hi
        cases hd : tbl[a.toNat] <;>
          simp [ULOG_TOGGLE_ATTR, disabled, hlt, hd]
      · simp [ULOG_TOGGLE_ATTR, hi]
  · have hge : tbl.length ≤ a.toNat := Nat.le_of_not_lt hlt
    simp [ULOG_TOGGLE_ATTR, List.set_eq_of_length_le hge]

/-! ## The whole line -/

theorem any_written_of_concat_ne_nil :
    ∀ segs : List (Option CStr), concat_written segs ≠ [] → segs.any Option.isSome = true := by
  intro segs
  induction segs with
  | nil => intro h; exact absurd rfl h
  | cons o r ih =>
    intro h
    cases o with
    | none => simpa [concat_written] using ih (by simpa [concat_written] using h)
    | some s => simp

theorem ulog_buffer_of_written (env : Env) (tbl : List Bool) (level file func : CStr)
    (line : ℚ) (message : CStr) (h : ∃ a : ULOG_ATTRS, disabled tbl a = false)
    (hfit : fits BUFFER_SIZE (concat_written (segments env tbl level file func line message))) :
    ulog_buffer env tbl level file func line message =
      some ⟨concat_written (segments env tbl level file func line message),
        (concat_written (segments env tbl level file func line message)).length⟩ := by
  unfold fits at hfit
  rw [ulog_buffer_eq,
    if_pos ((segments_any_written env tbl level file func line message).2 h), if_pos hfit]

/-- When the segments do not fit the array, some write runs past its end. -/
theorem ulog_buffer_of_overrun (env : Env) (tbl : List Bool) (level file func : CStr)
    (line : ℚ) (message : CStr)
    (hfit : ¬ fits BUFFER_SIZE (concat_written (segments env tbl level file func line message))) :
    ulog_buffer env tbl level file func line message = none ∧
    cgcs_ulog env tbl level file func line message = none := by
  have hne : concat_written (segments env tbl level file func line message) ≠ [] := by
    intro e
    apply hfit
    rw [e]
    unfold fits BUFFER_SIZE
    decide
  have hany := any_written_of_concat_ne_nil _ hne
  have hb : ulog_buffer env tbl level file func line message = none := by
    unfold fits at hfit
    rw [ulog_buffer_eq, if_pos hany, if_neg hfit]
  refine ⟨hb, ?_⟩
  unfold cgcs_ulog
  rw [hb]
  rfl

/-- The line when some attribute is visible and the segments fit the array. -/
theorem cgcs_ulog_of_visible (env : Env) (tbl : List Bool) (level file func : CStr)
    (line : ℚ) (message : CStr) (h : ∃ a : ULOG_ATTRS, disabled tbl a = false)
    (hfit : fits BUFFER_SIZE (concat_written (segments env tbl level file func line message))) :
    cgcs_ulog env tbl level file func line message =
      some (concat_written (segments env tbl level file func line message) ++ ['\n']) :=
  cgcs_ulog_of_written env tbl level file func line message
    ((segments_any_written env tbl level file func line message).2 h) hfit

/-- The message segment alone overruns the array when the message has 4084 characters
or more. -/
theorem not_fits_of_long_message (env : Env) (tbl : List Bool) (level file func : CStr)
    (line : ℚ) (message : CStr) (hM : disabled tbl .MESSAGE = false)
    (hlen : 4084 ≤ message.length) :
    ¬ fits BUFFER_SIZE (concat_written (segments env tbl level file func line message)) := by
  unfold segments
  rw [concat_written_seven]
  have hm : message_segment tbl message = some (KNRM_b ++ message ++ KNRM) := by
    unfold message_segment
    rw [if_pos hM]
  have h1 : KNRM_b.length = 6 := by decide
  have h2 : KNRM.length = 6 := by decide
  rw [hm]
  unfold fits BUFFER_SIZE
  simp only [Option.getD_some, List.length_append, h1, h2]
  omega

theorem last_style_code_none : ∀ s : CStr, '\x1B' ∉ s → last_style_code s = none := by
  intro s
  induction s with
  | nil => intro _; rfl
  | cons c r ih =>
    intro h
    have hc : c ≠ '\x1B' := fun e => h (by rw [e]; exact List.mem_cons_self _ _)
    have hr : '\x1B' ∉ r := fun m => h (List.mem_cons_of_mem _ m)
    simp [last_style_code, ih hr, hc]

theorem last_style_code_append (s t k : CStr) (h : last_style_code t = some k) :
    last_style_code (s ++ t) = some k := by
  induction s with
  | nil => simpa using h
  | cons c r ih => simp [last_style_code, ih]

/-- A line that ends with `KCYN`, text without escape character and a newline: its
last style code is `KCYN`. -/
theorem last_style_code_KCYN (pre func : CStr) (h : '\x1B' ∉ func) :
    last_style_code (pre ++ (KCYN ++ func) ++ ['\n']) = some KCYN := by
  rw [List.append_assoc]
  apply last_style_code_append
  have hnone : last_style_code ("[0;36m".toList ++ func ++ ['\n']) = none := by
    apply last_style_code_none
    intro hm
    simp only [List.mem_append] at hm
    rcases hm with (hm | hm) | hm
    · revert hm; decide
    · exact h hm
    · revert hm; decide
  have e : (KCYN ++ func) ++ ['\n'] = '\x1B' :: ("[0;36m".toList ++ func ++ ['\n']) := by
    simp [KCYN]
  rw [e]
  unfold last_style_code
  rw [hnone]
  simp [take_code, KCYN]

/-! # The claims -/

/-- C1, as stated, fails: with FILENAME and LINE both visible, origin string `$price`
and line value 19.5 (Currency mode), the origin segment is `[$price19.50] `, with no
colon between the file string and the amount. -/
theorem C1_counterexample :
    disabled ulog_attrs_disable .FILENAME = false ∧ disabled ulog_attrs_disable .LINE = false ∧
    classify env0 "$price".toList 19.5 = .Currency ∧
    origin_segment env0 ulog_attrs_disable "$price".toList 19.5 = some "[$price19.50] ".toList ∧
    origin_segment env0 ulog_attrs_disable "$price".toList 19.5 ≠
      some ('[' :: "$price".toList ++ ':' ::
        render env0 19.5 (classify env0 "$price".toList 19.5) ++ "] ".toList) := by
  decide!

/-- C1, amended: when FILENAME and LINE are both visible the origin segment is
`[<file>:<rendered-line>] ` in Integer and Fractional mode, and `[<file><amount>] `,
without the colon, in Currency mode; the line value is rendered per its mode. -/
theorem C1_origin_both_visible (env : Env) (tbl : List Bool) (file : CStr) (line : ℚ)
    (hF : disabled tbl .FILENAME = false) (hL : disabled tbl .LINE = false) :
    origin_segment env tbl file line =
      some ('[' :: file ++ (if classify env file line = .Currency then [] else [':']) ++
        render env line (classify env file line) ++ "] ".toList) := by
  unfold origin_segment classify
  simp only [hF, hL]
  cases is_integer env file line <;> cases is_currency file <;> simp [render]

/-- C1, amended, at concrete inputs: one call per mode. -/
theorem C1_origin_both_visible_witness :
    (disabled ulog_attrs_disable .FILENAME = false ∧ disabled ulog_attrs_disable .LINE = false) ∧
    origin_segment env0 ulog_attrs_disable "foo.c".toList 42 = some "[foo.c:42] ".toList ∧
    origin_segment env0 ulog_attrs_disable "foo.c".toList 3.14 = some "[foo.c:3.140000] ".toList ∧
    origin_segment env0 ulog_attrs_disable "$".toList 19.5 = some "[$19.50] ".toList := by
  refine ⟨⟨by decide, by decide⟩, ?_, ?_, ?_⟩
  · rw [C1_origin_both_visible env0 ulog_attrs_disable _ _ (by decide) (by decide)]
    decide!
  · rw [C1_origin_both_visible env0 ulog_attrs_disable _ _ (by decide) (by decide)]
    decide!
  · rw [C1_origin_both_visible env0 ulog_attrs_disable _ _ (by decide) (by decide)]
    decide!

/-- C2, as stated, fails: the line value 2^63 has no fractional part, but its
truncation does not fit a `long long`; whatever 64-bit value the cast produces, the
ratio test fails and a non-currency origin selects Fractional, not Integer. -/
theorem C2_counterexample :
    (∃ n : Int, (2 : ℚ) ^ 63 = (n : ℚ)) ∧ is_currency "foo.c".toList = false ∧
    (∀ env : Env, ratio_test env (2 ^ 63) = false) ∧
    (∀ env : Env, classify env "foo.c".toList (2 ^ 63) = .Fractional) ∧
    origin_segment env0 ulog_attrs_disable "foo.c".toList (2 ^ 63)
      = some "[foo.c:9223372036854775808.000000] ".toList := by
  have hr : ∀ env : Env, ratio_test env (2 ^ 63) = false := by
    intro env
    apply ratio_test_of_not_fits env (by norm_num)
    rw [trunc_two_pow_63]
    unfold LLONG_MAX
    omega
  refine ⟨⟨2 ^ 63, by push_cast; rfl⟩, by decide, hr, ?_, by decide!⟩
  intro env
  have hc : is_currency "foo.c".toList = false := by decide
  unfold classify is_integer
  rw [hc]
  simp [hr env]

/-- C2, amended: the classifier selects Integer exactly when the origin string does
not start with `$` and the ratio test holds, which is the case exactly when the value
has no fractional part and lies within the signed 64-bit range of the cast; Currency
exactly when the origin string starts with `$`; Fractional otherwise; a value with
0 < |line| < 1 is never Integer. -/
theorem C2_classifier (env : Env) (file : CStr) (line : ℚ) :
    (classify env file line = .Integer ↔ is_currency file = false ∧ ratio_test env line = true) ∧
    (ratio_test env line = true ↔
      ∃ n : Int, line = (n : ℚ) ∧ LLONG_MIN ≤ n ∧ n ≤ LLONG_MAX) ∧
    (classify env file line = .Currency ↔ is_currency file = true) ∧
    (classify env file line = .Fractional ↔
      is_currency file = false ∧ ratio_test env line = false) ∧
    (0 < |line| → |line| < 1 → classify env file line ≠ .Integer) := by
  refine ⟨?_, ratio_test_iff_whole_fits env line, ?_, ?_, ?_⟩
  · unfold classify is_integer
    cases is_currency file <;> cases ratio_test env line <;> simp
  · unfold classify is_integer
    cases is_currency file <;> cases ratio_test env line <;> simp
  · unfold classify is_integer
    cases is_currency file <;> cases ratio_test env line <;> simp
  · intro hpos hlt
    have hfit : LLONG_MIN ≤ trunc line ∧ trunc line ≤ LLONG_MAX := by
      rw [trunc_eq_zero hlt]; exact ⟨by decide, by decide⟩
    have hr : ratio_test env line = false := by
      rw [← Bool.not_eq_true, ratio_test_iff, to_long_long_of_fits env hfit, trunc_eq_zero hlt]
      rintro (⟨h, _⟩ | h)
      · exact h rfl
      · rw [h] at hpos; simp at hpos
    unfold classify is_integer
    cases is_currency file <;> simp [hr]

/-- C2, amended, at concrete inputs: 1/2 is Fractional, 42 is Integer, and an origin
string that starts with `$` makes 42 a Currency amount. -/
theorem C2_classifier_witness :
    (0 < |(1 / 2 : ℚ)| ∧ |(1 / 2 : ℚ)| < 1) ∧
    classify env0 "foo.c".toList (1 / 2) ≠ .Integer ∧
    classify env0 "foo.c".toList (1 / 2) = .Fractional ∧
    classify env0 "foo.c".toList 42 = .Integer ∧
    classify env0 "$foo".toList 42 = .Currency := by
  have h1 : 0 < |(1 / 2 : ℚ)| := by norm_num
  have h2 : |(1 / 2 : ℚ)| < 1 := by rw [abs_lt]; constructor <;> norm_num
  exact ⟨⟨h1, h2⟩, (C2_classifier env0 "foo.c".toList (1 / 2)).2.2.2.2 h1 h2,
    by decide!, by decide!, by decide!⟩

/-- C3: for an origin string that starts with `$` and any line value, with LINE visible
the origin segment holds the amount as `%0.2Lf` renders it (after the file string when
FILENAME is visible): the value rounded to hundredths, as a sign, a run of digits, a
decimal point and exactly 2 digits; the point precedes exactly those 2 digits, so the
amount is neither a bare integer nor a 6-decimal numeral. -/
theorem C3_currency_two_decimals (env : Env) (tbl : List Bool) (file : CStr) (line : ℚ)
    (hc : is_currency file = true) (hL : disabled tbl .LINE = false) :
    origin_segment env tbl file line =
      some ('[' :: (if disabled tbl .FILENAME = true then [] else file) ++
        fmt_Lf 2 line ++ "] ".toList) ∧
    is_fixed_point 2 line (fmt_Lf 2 line) ∧
    fmt_Lf 2 line = int_digits 2 line ++ '.' :: frac_digits 2 line ∧
    '.' ∉ int_digits 2 line ∧ '.' ∉ frac_digits 2 line ∧
    (frac_digits 2 line).length = 2 ∧
    fmt_Lf 2 line ≠ fmt_Lf 6 line ∧
    fmt_Lf 2 line ≠ fmt_lli (to_long_long env line) := by
  refine ⟨?_, fmt_Lf_is_fixed_point 2 (by decide) line, rfl, point_not_mem_int_digits 2 line,
    fun h => is_dec_digit_ne_point (frac_digits_is_dec_digit 2 line _ h) rfl,
    frac_digits_length 2 line (by decide), fmt_Lf_two_ne_six line, ?_⟩
  · unfold origin_segment is_integer
    simp only [hc, hL]
    cases disabled tbl .FILENAME <;> simp
  · intro h
    have := point_mem_fmt_Lf 2 line
    rw [h] at this
    exact point_not_mem_fmt_lli _ this

/-- C3 at the input of the specification: origin `$price` with value 19.5 renders the
amount `19.50`. -/
theorem C3_currency_two_decimals_witness :
    is_currency "$price".toList = true ∧
    disabled [false, false, false, true, false, false, false] .LINE = false ∧
    fmt_Lf 2 19.5 = "19.50".toList ∧
    origin_segment env0 [false, false, false, true, false, false, false] "$price".toList 19.5
      = some "[19.50] ".toList ∧
    (frac_digits 2 19.5).length = 2 := by
  have h := C3_currency_two_decimals env0 [false, false, false, true, false, false, false]
    "$price".toList 19.5 (by decide) (by decide)
  refine ⟨by decide, by decide, by decide!, ?_, h.2.2.2.2.2.1⟩
  rw [h.1]
  decide!

/-- C4: for a whole number `n` within the 64-bit signed range and an origin string that
does not start with `$`, with LINE visible the origin segment holds `n` as `%lli` renders
it (after the file string and a colon when FILENAME is visible): a numeral with no
decimal point whose value is `n`. -/
theorem C4_integer_render (env : Env) (tbl : List Bool) (file : CStr) (n : Int)
    (hmin : LLONG_MIN ≤ n) (hmax : n ≤ LLONG_MAX)
    (hc : is_currency file = false) (hL : disabled tbl .LINE = false) :
    origin_segment env tbl file (n : ℚ) =
      some ('[' :: (if disabled tbl .FILENAME = true then [] else file ++ [':']) ++
        fmt_lli n ++ "] ".toList) ∧
    '.' ∉ fmt_lli n ∧ int_value (fmt_lli n) = n ∧
    fmt_lli n = (if n < 0 then ['-'] else []) ++ nat_digits n.natAbs ∧
    (∀ c ∈ nat_digits n.natAbs, is_dec_digit c) := by
  refine ⟨origin_segment_of_whole env tbl file n hmin hmax hc hL, point_not_mem_fmt_lli n,
    int_value_fmt_lli n, ?_, nat_digits_is_dec_digit _⟩
  unfold fmt_lli
  split <;> simp

/-- C4 at the input of the specification: 42.0 renders as `42`; also 0 and -7. -/
theorem C4_integer_render_witness :
    (LLONG_MIN ≤ 42 ∧ (42 : Int) ≤ LLONG_MAX) ∧ is_currency "foo.c".toList = false ∧
    disabled ulog_attrs_disable .LINE = false ∧
    origin_segment env0 ulog_attrs_disable "foo.c".toList 42.0 = some "[foo.c:42] ".toList ∧
    fmt_lli 42 = "42".toList ∧ fmt_lli 0 = "0".toList ∧ fmt_lli (-7) = "-7".toList := by
  have h := C4_integer_render env0 ulog_attrs_disable "foo.c".toList 42
    (by decide) (by decide) (by decide) (by decide)
  refine ⟨⟨by decide, by decide⟩, by decide, by decide, ?_, by decide, by decide, by decide⟩
  have e : (42.0 : ℚ) = ((42 : Int) : ℚ) := by norm_num
  rw [e, h.1]
  decide

/-- C5: for a line value with a non-zero fractional part and an origin string that does
not start with `$`, with LINE visible the origin segment holds the value as `%Lf`
renders it (after the file string and a colon when FILENAME is visible): the value
rounded to 6 decimals, as a sign, a run of digits, a decimal point and exactly 6
digits; it is not the integer rendering of the truncated value. -/
theorem C5_fractional_render (env : Env) (tbl : List Bool) (file : CStr) (line : ℚ)
    (hfrac : ¬ ∃ n : Int, line = (n : ℚ))
    (hc : is_currency file = false) (hL : disabled tbl .LINE = false) :
    origin_segment env tbl file line =
      some ('[' :: (if disabled tbl .FILENAME = true then [] else file ++ [':']) ++
        fmt_Lf 6 line ++ "] ".toList) ∧
    is_fixed_point 6 line (fmt_Lf 6 line) ∧
    fmt_Lf 6 line = int_digits 6 line ++ '.' :: frac_digits 6 line ∧
    '.' ∉ int_digits 6 line ∧ '.' ∉ frac_digits 6 line ∧
    (frac_digits 6 line).length = 6 ∧
    fmt_Lf 6 line ≠ fmt_lli (to_long_long env line) := by
  have hr : ratio_test env line = false := ratio_test_of_not_whole env hfrac
  refine ⟨?_, fmt_Lf_is_fixed_point 6 (by decide) line, rfl, point_not_mem_int_digits 6 line,
    fun h => is_dec_digit_ne_point (frac_digits_is_dec_digit 6 line _ h) rfl,
    frac_digits_length 6 line (by decide), ?_⟩
  · unfold origin_segment is_integer
    simp only [hc, hL, hr]
    cases disabled tbl .FILENAME <;> simp
  · intro h
    have := point_mem_fmt_Lf 6 line
    rw [h] at this
    exact point_not_mem_fmt_lli _ this

/-- C5 at the input of the specification: 3.14 renders as `3.140000`. -/
theorem C5_fractional_render_witness :
    (¬ ∃ n : Int, (3.14 : ℚ) = (n : ℚ)) ∧ is_currency "foo.c".toList = false ∧
    disabled ulog_attrs_disable .LINE = false ∧
    fmt_Lf 6 3.14 = "3.140000".toList ∧
    origin_segment env0 ulog_attrs_disable "foo.c".toList 3.14
      = some "[foo.c:3.140000] ".toList := by
  have hw : ¬ ∃ n : Int, (3.14 : ℚ) = (n : ℚ) := not_whole_of_den (by decide!)
  have h := C5_fractional_render env0 ulog_attrs_disable "foo.c".toList 3.14 hw
    (by decide) (by decide)
  refine ⟨hw, by decide, by decide, by decide!, ?_⟩
  rw [h.1]
  decide!

/-- C6: the pair (color, blink) chosen for a level label: bold yellow, no blink for
`[BUG]`; bold cyan, no blink for `[LOG]`; bold red with blink for `[ERROR]`; bold
magenta with blink for `[WARNING]`; for every other label (also `LOG` without brackets
and the empty string) the neutral color `KNRM` and no blink. The level segment is the
blink code, the color code, the label, `KNRM` and a space, and it stands in the line;
for a label that is not recognised the message segment is written unchanged at the end
of the line. The statements about the whole line are for lines that fit `buffer`. -/
theorem C6_level_style (level : CStr) :
    (level = "[BUG]".toList → level_style level = (KYEL_b, [])) ∧
    (level = "[LOG]".toList → level_style level = (KCYN_b, [])) ∧
    (level = "[ERROR]".toList → level_style level = (KRED_b, KBNK)) ∧
    (level = "[WARNING]".toList → level_style level = (KMAG_b, KBNK)) ∧
    (level ≠ "[BUG]".toList → level ≠ "[LOG]".toList → level ≠ "[ERROR]".toList →
      level ≠ "[WARNING]".toList →
        level_style level = (KNRM, []) ∧
        ∀ (env : Env) (tbl : List Bool) (file func : CStr) (line : ℚ) (message : CStr),
          (disabled tbl .LEVEL = false →
            level_segment tbl level = some (KNRM ++ level ++ KNRM ++ [' '])) ∧
          (disabled tbl .MESSAGE = false →
            message_segment tbl message = some (KNRM_b ++ message ++ KNRM) ∧
            (fits BUFFER_SIZE
                (concat_written (segments env tbl level file func line message)) →
              ∃ pre : CStr, cgcs_ulog env tbl level file func line message =
                some (pre ++ (KNRM_b ++ message ++ KNRM) ++ ['\n'])))) ∧
    level_style "LOG".toList = (KNRM, []) ∧ level_style [] = (KNRM, []) ∧
    (∀ tbl : List Bool, disabled tbl .LEVEL = false →
      level_segment tbl level =
        some ((level_style level).2 ++ (level_style level).1 ++ level ++ KNRM ++ [' ']) ∧
      level_segment tbl "[BUG]".toList = some (KYEL_b ++ "[BUG]".toList ++ KNRM ++ [' ']) ∧
      level_segment tbl "[LOG]".toList = some (KCYN_b ++ "[LOG]".toList ++ KNRM ++ [' ']) ∧
      level_segment tbl "[ERROR]".toList =
        some (KBNK ++ KRED_b ++ "[ERROR]".toList ++ KNRM ++ [' ']) ∧
      level_segment tbl "[WARNING]".toList =
        some (KBNK ++ KMAG_b ++ "[WARNING]".toList ++ KNRM ++ [' '])) ∧
    (∀ (env : Env) (tbl : List Bool) (file func : CStr) (line : ℚ) (message : CStr),
      disabled tbl .LEVEL = false →
      fits BUFFER_SIZE (concat_written (segments env tbl level file func line message)) →
      ∃ pre post : CStr, cgcs_ulog env tbl level file func line message =
        some (pre ++ ((level_style level).2 ++ (level_style level).1 ++ level ++ KNRM ++ [' '])
          ++ post)) := by
  have hseg : ∀ (tbl : List Bool) (l : CStr), disabled tbl .LEVEL = false →
      level_segment tbl l =
        some ((level_style l).2 ++ (level_style l).1 ++ l ++ KNRM ++ [' ']) := by
    intro tbl l hL
    unfold level_segment
    rw [if_pos hL]
  refine ⟨?_, ?_, ?_, ?_, ?_, by decide, by decide, ?_, ?_⟩
  · rintro rfl; decide
  · rintro rfl; decide
  · rintro rfl; decide
  · rintro rfl; decide
  · intro h1 h2 h3 h4
    have hs : level_style level = (KNRM, []) := by
      unfold level_style
      rw [if_neg h1, if_neg h2, if_neg h3, if_neg h4]
    refine ⟨hs, ?_⟩
    intro env tbl file func line message
    constructor
    · intro hL
      rw [hseg tbl level hL, hs]
      rfl
    · intro hM
      have hm : message_segment tbl message = some (KNRM_b ++ message ++ KNRM) := by
        unfold message_segment
        rw [if_pos hM]
      refine ⟨hm, ?_⟩
      intro hfit
      rw [cgcs_ulog_of_visible env tbl level file func line message ⟨.MESSAGE, hM⟩ hfit]
      refine ⟨(date_segment env tbl).getD [] ++ (time_segment env tbl).getD [] ++
        (level_segment tbl level).getD [] ++ (origin_segment env tbl file line).getD [] ++
        (function_segment tbl func).getD [] ++ (separator_segment tbl).getD [], ?_⟩
      unfold segments
      rw [concat_written_seven, hm]
      rfl
  · intro tbl hL
    refine ⟨hseg tbl level hL, ?_, ?_, ?_, ?_⟩
    · rw [hseg tbl _ hL, show level_style "[BUG]".toList = (KYEL_b, []) by decide]
      rfl
    · rw [hseg tbl _ hL, show level_style "[LOG]".toList = (KCYN_b, []) by decide]
      rfl
    · rw [hseg tbl _ hL, show level_style "[ERROR]".toList = (KRED_b, KBNK) by decide]
    · rw [hseg tbl _ hL, show level_style "[WARNING]".toList = (KMAG_b, KBNK) by decide]
  · intro env tbl file func line message hL hfit
    rw [cgcs_ulog_of_visible env tbl level file func line message ⟨.LEVEL, hL⟩ hfit]
    refine ⟨(date_segment env tbl).getD [] ++ (time_segment env tbl).getD [],
      (origin_segment env tbl file line).getD [] ++
        (function_segment tbl func).getD [] ++ (separator_segment tbl).getD [] ++
        (message_segment tbl message).getD [] ++ ['\n'], ?_⟩
    unfold segments
    rw [concat_written_seven, hseg tbl level hL]
    simp

/-- C6 at concrete labels: the unbracketed `LOG` is styled with `KNRM` and no blink and
its message is still written; `[ERROR]` is written with blink and bold red. -/
theorem C6_level_style_witness :
    ("LOG".toList ≠ "[BUG]".toList ∧ "LOG".toList ≠ "[LOG]".toList ∧
      "LOG".toList ≠ "[ERROR]".toList ∧ "LOG".toList ≠ "[WARNING]".toList) ∧
    level_style "LOG".toList = (KNRM, []) ∧
    level_segment ulog_attrs_disable "LOG".toList
      = some "\x1B[0;0mLOG\x1B[0;0m ".toList ∧
    message_segment ulog_attrs_disable "hello 7".toList
      = some "\x1B[0;1mhello 7\x1B[0;0m".toList ∧
    level_segment ulog_attrs_disable "[ERROR]".toList
      = some "\x1B[0;5m\x1B[1;31m[ERROR]\x1B[0;0m ".toList ∧
    fits BUFFER_SIZE (concat_written (segments env0 ulog_attrs_disable "LOG".toList
      "foo.c".toList "main".toList 42 "hello 7".toList)) ∧
    cgcs_ulog env0 ulog_attrs_disable "LOG".toList "foo.c".toList "main".toList 42
      "hello 7".toList =
    some ("\x1B[0;2mDec  9 2020\x1B[0;0m \x1B[0;2m12:00:00\x1B[0;0m \x1B[0;0mLOG\x1B[0;0m " ++
      "[foo.c:42] \x1B[0;36mmain \x1B[0;1mhello 7\x1B[0;0m\n").toList := by
  have h := (C6_level_style "LOG".toList).2.2.2.2.1 (by decide) (by decide) (by decide)
    (by decide)
  have h2 := h.2 env0 ulog_attrs_disable "foo.c".toList "main".toList 42 "hello 7".toList
  have h3 := ((C6_level_style "LOG".toList).2.2.2.2.2.2.2.1 ulog_attrs_disable
    (by decide)).2.2.2.1
  have hfit : fits BUFFER_SIZE (concat_written (segments env0 ulog_attrs_disable
      "LOG".toList "foo.c".toList "main".toList 42 "hello 7".toList)) := by
    unfold fits
    decide!
  refine ⟨by decide, h.1, ?_, ?_, ?_, hfit, by decide!⟩
  · rw [h2.1 (by decide)]; decide
  · rw [(h2.2 (by decide)).1]; decide
  · rw [h3]; decide

/-- C7, at the state with all seven attributes disabled: no segment is written, so
the concatenation of the visible segments is empty, but the line passed to the stream
is what the uninitialised buffer holds (here `junk`), followed by the newline. -/
theorem C7_all_disabled_prints_stack :
    (∀ a : ULOG_ATTRS, disabled all_disabled a = true) ∧
    (∀ (env : Env) (level file func : CStr) (line : ℚ) (message : CStr),
      concat_written (segments env all_disabled level file func line message) = [] ∧
      cgcs_ulog env all_disabled level file func line message = some (env.stack ++ ['\n'])) ∧
    cgcs_ulog env_junk all_disabled "[LOG]".toList "foo.c".toList "main".toList 42
      "hello 7".toList = some "junk\n".toList := by
  have hs : ∀ (env : Env) (level file func : CStr) (line : ℚ) (message : CStr),
      segments env all_disabled level file func line message
        = [none, none, none, none, none, none, none] := by
    intro env level file func line message
    simp [segments, date_segment, time_segment, level_segment, origin_segment,
      function_segment, separator_segment, message_segment, disabled, all_disabled,
      ULOG_ATTRS.toNat]
  have hg : ∀ (env : Env) (level file func : CStr) (line : ℚ) (message : CStr),
      concat_written (segments env all_disabled level file func line message) = [] ∧
      cgcs_ulog env all_disabled level file func line message
        = some (env.stack ++ ['\n']) := by
    intro env level file func line message
    refine ⟨by rw [hs]; rfl, ?_⟩
    apply cgcs_ulog_of_nothing_written
    rw [hs]
    rfl
  refine ⟨fun a => by cases a <;> rfl, hg, ?_⟩
  rw [(hg _ _ _ _ _ _).2]
  rfl

/-- C9: when only FILENAME is visible the origin segment is `[<file>] ` for every line
value; when only LINE is visible it is the bracketed line value rendered per its mode
(`[<amount>] ` in Currency mode), which depends on the origin string only through
whether it starts with `$`. -/
theorem C9_origin_one_visible (env : Env) (tbl : List Bool) (file : CStr) (line : ℚ) :
    (disabled tbl .FILENAME = false → disabled tbl .LINE = true →
      ∀ line' : ℚ, origin_segment env tbl file line' = some ('[' :: file ++ "] ".toList)) ∧
    (disabled tbl .FILENAME = true → disabled tbl .LINE = false →
      origin_segment env tbl file line =
        some ('[' :: render env line (classify env file line) ++ "] ".toList) ∧
      (is_currency file = true →
        origin_segment env tbl file line = some ('[' :: fmt_Lf 2 line ++ "] ".toList)) ∧
      ∀ file' : CStr, is_currency file' = is_currency file →
        origin_segment env tbl file' line = origin_segment env tbl file line) := by
  constructor
  · intro hF hL line'
    unfold origin_segment
    simp [hF, hL]
  · intro hF hL
    refine ⟨?_, ?_, ?_⟩
    · unfold origin_segment classify
      simp only [hF, hL]
      cases is_integer env file line <;> cases is_currency file <;> simp [render]
    · intro hc
      unfold origin_segment is_integer
      simp [hF, hL, hc]
    · intro file' hc
      unfold origin_segment is_integer
      simp [hF, hL, hc]

/-- C9 at concrete inputs: `[foo.c] ` whatever the line value, `[42] ` and `[19.50] `. -/
theorem C9_origin_one_visible_witness :
    (disabled [false, false, false, false, true, false, false] .FILENAME = false ∧
      disabled [false, false, false, false, true, false, false] .LINE = true) ∧
    (disabled [false, false, false, true, false, false, false] .FILENAME = true ∧
      disabled [false, false, false, true, false, false, false] .LINE = false) ∧
    origin_segment env0 [false, false, false, false, true, false, false] "foo.c".toList 3.14
      = some "[foo.c] ".toList ∧
    origin_segment env0 [false, false, false, true, false, false, false] "foo.c".toList 42
      = some "[42] ".toList ∧
    origin_segment env0 [false, false, false, true, false, false, false] "$price".toList 19.5
      = some "[19.50] ".toList := by
  refine ⟨by decide, by decide, ?_, ?_, ?_⟩
  · rw [(C9_origin_one_visible env0 [false, false, false, false, true, false, false]
      "foo.c".toList 42).1 (by decide) (by decide) 3.14]
    decide
  · rw [((C9_origin_one_visible env0 [false, false, false, true, false, false, false]
      "foo.c".toList 42).2 (by decide) (by decide)).1]
    decide!
  · rw [((C9_origin_one_visible env0 [false, false, false, true, false, false, false]
      "$price".toList 19.5).2 (by decide) (by decide)).2.1 (by decide)]
    decide!

/-- C10: when FILENAME and LINE are both disabled no origin segment is written: the
segments written are those of the date, time, level, function, separator and message,
each exactly as for any table that agrees on the other five attributes (one with the
origin visible included); when some attribute is visible and they fit `buffer`, the
line is their concatenation. -/
theorem C10_origin_absent (env : Env) (tbl : List Bool) (level file func : CStr) (line : ℚ)
    (message : CStr)
    (hF : disabled tbl .FILENAME = true) (hL : disabled tbl .LINE = true) :
    origin_segment env tbl file line = none ∧
    concat_written (segments env tbl level file func line message) =
      (date_segment env tbl).getD [] ++ (time_segment env tbl).getD [] ++
      (level_segment tbl level).getD [] ++ (function_segment tbl func).getD [] ++
      (separator_segment tbl).getD [] ++ (message_segment tbl message).getD [] ∧
    (∀ (tbl' : List Bool) (file' : CStr) (line' : ℚ),
      (∀ a : ULOG_ATTRS, a ≠ .FILENAME → a ≠ .LINE → disabled tbl' a = disabled tbl a) →
      date_segment env tbl' = date_segment env tbl ∧
      time_segment env tbl' = time_segment env tbl ∧
      level_segment tbl' level = level_segment tbl level ∧
      function_segment tbl' func = function_segment tbl func ∧
      separator_segment tbl' = separator_segment tbl ∧
      message_segment tbl' message = message_segment tbl message ∧
      concat_written (segments env tbl' level file' func line' message) =
        (date_segment env tbl).getD [] ++ (time_segment env tbl).getD [] ++
        (level_segment tbl level).getD [] ++ (origin_segment env tbl' file' line').getD [] ++
        (function_segment tbl func).getD [] ++
        (separator_segment tbl).getD [] ++ (message_segment tbl message).getD []) ∧
    ((∃ a : ULOG_ATTRS, disabled tbl a = false) →
      fits BUFFER_SIZE (concat_written (segments env tbl level file func line message)) →
      cgcs_ulog env tbl level file func line message =
        some ((date_segment env tbl).getD [] ++ (time_segment env tbl).getD [] ++
        (level_segment tbl level).getD [] ++ (function_segment tbl func).getD [] ++
        (separator_segment tbl).getD [] ++ (message_segment tbl message).getD [] ++
        ['\n'])) := by
  have ho : origin_segment env tbl file line = none := by
    unfold origin_segment
    simp [hF, hL]
  have hc : concat_written (segments env tbl level file func line message) =
      (date_segment env tbl).getD [] ++ (time_segment env tbl).getD [] ++
      (level_segment tbl level).getD [] ++ (function_segment tbl func).getD [] ++
      (separator_segment tbl).getD [] ++ (message_segment tbl message).getD [] := by
    unfold segments
    rw [concat_written_seven, ho]
    simp
  refine ⟨ho, hc, ?_, ?_⟩
  · intro tbl' file' line' hagree
    have h1 : date_segment env tbl' = date_segment env tbl := by
      unfold date_segment
      rw [hagree .DATE (by decide) (by decide)]
    have h2 : time_segment env tbl' = time_segment env tbl := by
      unfold time_segment
      rw [hagree .TIME (by decide) (by decide)]
    have h3 : level_segment tbl' level = level_segment tbl level := by
      unfold level_segment
      rw [hagree .LEVEL (by decide) (by decide)]
    have h4 : function_segment tbl' func = function_segment tbl func := by
      unfold function_segment
      rw [hagree .FUNCTION (by decide) (by decide)]
    have h5 : separator_segment tbl' = separator_segment tbl := by
      unfold separator_segment
      rw [hagree .FUNCTION (by decide) (by decide), hagree .MESSAGE (by decide) (by decide)]
    have h6 : message_segment tbl' message = message_segment tbl message := by
      unfold message_segment
      rw [hagree .MESSAGE (by decide) (by decide)]
    refine ⟨h1, h2, h3, h4, h5, h6, ?_⟩
    unfold segments
    rw [concat_written_seven, h1, h2, h3, h4, h5, h6]
  · intro hvis hfit
    rw [cgcs_ulog_of_visible env tbl level file func line message hvis hfit, hc]

/-- C10 at a concrete input: the line without the origin segment. -/
theorem C10_origin_absent_witness :
    (disabled [false, false, false, true, true, false, false] .FILENAME = true ∧
      disabled [false, false, false, true, true, false, false] .LINE = true) ∧
    origin_segment env0 [false, false, false, true, true, false, false] "foo.c".toList 42
      = none ∧
    fits BUFFER_SIZE (concat_written (segments env0
      [false, false, false, true, true, false, false] "[LOG]".toList "foo.c".toList
      "main".toList 42 "hello 7".toList)) ∧
    cgcs_ulog env0 [false, false, false, true, true, false, false] "[LOG]".toList
      "foo.c".toList "main".toList 42 "hello 7".toList =
    some ("\x1B[0;2mDec  9 2020\x1B[0;0m \x1B[0;2m12:00:00\x1B[0;0m \x1B[1;36m[LOG]\x1B[0;0m " ++
      "\x1B[0;36mmain \x1B[0;1mhello 7\x1B[0;0m\n").toList := by
  have h := C10_origin_absent env0 [false, false, false, true, true, false, false]
    "[LOG]".toList "foo.c".toList "main".toList 42 "hello 7".toList (by decide) (by decide)
  have hfit : fits BUFFER_SIZE (concat_written (segments env0
      [false, false, false, true, true, false, false] "[LOG]".toList "foo.c".toList
      "main".toList 42 "hello 7".toList)) := by
    unfold fits
    decide!
  refine ⟨by decide, h.1, hfit, ?_⟩
  rw [h.2.2.2 ⟨.DATE, by decide⟩ hfit]
  decide

/-- C11: in every visibility state the separating space is written exactly when
FUNCTION and MESSAGE are both visible, and it stands between the function segment and
the message segment. For a line that fits `buffer`: with both visible the line ends
with the function segment, one space and the message segment; with exactly one of them
visible it ends with that segment alone, without the space; with both disabled (and
something else visible) it ends with the segment before them (date, time, level,
origin) and no space is added. -/
theorem C11_separator (env : Env) (tbl : List Bool) (level file func : CStr) (line : ℚ)
    (message : CStr) :
    (separator_segment tbl = some [' '] ↔
      disabled tbl .FUNCTION = false ∧ disabled tbl .MESSAGE = false) ∧
    (separator_segment tbl = none ↔
      ¬ (disabled tbl .FUNCTION = false ∧ disabled tbl .MESSAGE = false)) ∧
    (fits BUFFER_SIZE (concat_written (segments env tbl level file func line message)) →
      (disabled tbl .FUNCTION = false → disabled tbl .MESSAGE = false →
        cgcs_ulog env tbl level file func line message =
          some ((date_segment env tbl).getD [] ++ (time_segment env tbl).getD [] ++
          (level_segment tbl level).getD [] ++ (origin_segment env tbl file line).getD [] ++
          (KCYN ++ func) ++ [' '] ++ (KNRM_b ++ message ++ KNRM) ++ ['\n'])) ∧
      (disabled tbl .FUNCTION = false → disabled tbl .MESSAGE = true →
        cgcs_ulog env tbl level file func line message =
          some ((date_segment env tbl).getD [] ++ (time_segment env tbl).getD [] ++
          (level_segment tbl level).getD [] ++ (origin_segment env tbl file line).getD [] ++
          (KCYN ++ func) ++ ['\n'])) ∧
      (disabled tbl .FUNCTION = true → disabled tbl .MESSAGE = false →
        cgcs_ulog env tbl level file func line message =
          some ((date_segment env tbl).getD [] ++ (time_segment env tbl).getD [] ++
          (level_segment tbl level).getD [] ++ (origin_segment env tbl file line).getD [] ++
          (KNRM_b ++ message ++ KNRM) ++ ['\n'])) ∧
      (disabled tbl .FUNCTION = true → disabled tbl .MESSAGE = true →
        (∃ a : ULOG_ATTRS, disabled tbl a = false) →
        cgcs_ulog env tbl level file func line message =
          some ((date_segment env tbl).getD [] ++ (time_segment env tbl).getD [] ++
          (level_segment tbl level).getD [] ++ (origin_segment env tbl file line).getD [] ++
          ['\n']))) ∧
    (disabled tbl .FUNCTION = true → disabled tbl .MESSAGE = true →
      concat_written (segments env tbl level file func line message) =
        (date_segment env tbl).getD [] ++ (time_segment env tbl).getD [] ++
        (level_segment tbl level).getD [] ++ (origin_segment env tbl file line).getD []) := by
  have hcw : ∀ (hF hM : Bool), disabled tbl .FUNCTION = hF → disabled tbl .MESSAGE = hM →
      concat_written (segments env tbl level file func line message) =
        (date_segment env tbl).getD [] ++ (time_segment env tbl).getD [] ++
        (level_segment tbl level).getD [] ++ (origin_segment env tbl file line).getD [] ++
        (if hF = false then KCYN ++ func else []) ++
        (if hF = false ∧ hM = false then [' '] else []) ++
        (if hM = false then KNRM_b ++ message ++ KNRM else []) := by
    intro hF hM eF eM
    unfold segments
    rw [concat_written_seven]
    cases hF <;> cases hM <;>
      simp [function_segment, separator_segment, message_segment, eF, eM]
  refine ⟨?_, ?_, ?_, ?_⟩
  · unfold separator_segment
    by_cases h : disabled tbl .FUNCTION = false ∧ disabled tbl .MESSAGE = false
    · simp [h]
    · simp [h]
  · unfold separator_segment
    by_cases h : disabled tbl .FUNCTION = false ∧ disabled tbl .MESSAGE = false
    · simp [h]
    · simp [h]
  · intro hfit
    refine ⟨?_, ?_, ?_, ?_⟩
    · intro hF hM
      rw [cgcs_ulog_of_visible env tbl level file func line message ⟨.FUNCTION, hF⟩ hfit,
        hcw false false hF hM]
      simp
    · intro hF hM
      rw [cgcs_ulog_of_visible env tbl level file func line message ⟨.FUNCTION, hF⟩ hfit,
        hcw false true hF hM]
      simp
    · intro hF hM
      rw [cgcs_ulog_of_visible env tbl level file func line message ⟨.MESSAGE, hM⟩ hfit,
        hcw true false hF hM]
      simp
    · intro hF hM hvis
      rw [cgcs_ulog_of_visible env tbl level file func line message hvis hfit,
        hcw true true hF hM]
      simp
  · intro hF hM
    rw [hcw true true hF hM]
    simp

/-- C11 at concrete inputs: with FUNCTION and MESSAGE disabled the line ends after the
origin segment; with only MESSAGE disabled it ends after the function name; with both
visible one space stands between function and message. -/
theorem C11_separator_witness :
    (disabled [false, false, false, false, false, true, true] .FUNCTION = true ∧
      disabled [false, false, false, false, false, true, true] .MESSAGE = true) ∧
    (disabled ulog_attrs_disable .FUNCTION = false ∧
      disabled ulog_attrs_disable .MESSAGE = false) ∧
    separator_segment ulog_attrs_disable = some [' '] ∧
    fits BUFFER_SIZE (concat_written (segments env0
      [false, false, false, false, false, true, true] "[LOG]".toList "foo.c".toList
      "main".toList 42 "hello 7".toList)) ∧
    cgcs_ulog env0 [false, false, false, false, false, true, true] "[LOG]".toList
      "foo.c".toList "main".toList 42 "hello 7".toList =
    some ("\x1B[0;2mDec  9 2020\x1B[0;0m \x1B[0;2m12:00:00\x1B[0;0m \x1B[1;36m[LOG]\x1B[0;0m " ++
      "[foo.c:42] \n").toList ∧
    cgcs_ulog env0 message_disabled "[LOG]".toList
      "foo.c".toList "main".toList 42 "hello 7".toList =
    some ("\x1B[0;2mDec  9 2020\x1B[0;0m \x1B[0;2m12:00:00\x1B[0;0m \x1B[1;36m[LOG]\x1B[0;0m " ++
      "[foo.c:42] \x1B[0;36mmain\n").toList := by
  have h := C11_separator env0 [false, false, false, false, false, true, true]
    "[LOG]".toList "foo.c".toList "main".toList 42 "hello 7".toList
  have hfit : fits BUFFER_SIZE (concat_written (segments env0
      [false, false, false, false, false, true, true] "[LOG]".toList "foo.c".toList
      "main".toList 42 "hello 7".toList)) := by
    unfold fits
    decide!
  have h' := C11_separator env0 message_disabled
    "[LOG]".toList "foo.c".toList "main".toList 42 "hello 7".toList
  have hfit' : fits BUFFER_SIZE (concat_written (segments env0 message_disabled
      "[LOG]".toList "foo.c".toList "main".toList 42 "hello 7".toList)) := by
    unfold fits
    decide!
  refine ⟨by decide, by decide, ?_, hfit, ?_, ?_⟩
  · exact (C11_separator env0 ulog_attrs_disable [] [] [] 0 []).1.2 (by decide)
  · rw [(h.2.2.1 hfit).2.2.2 (by decide) (by decide) ⟨.DATE, by decide⟩]
    decide!
  · rw [(h'.2.2.1 hfit').2.1 (by decide) (by decide)]
    decide!

/-- C12: for every table and every attribute, `ULOG_TOGGLE_ATTR` applied twice to the
attribute restores the visibility of the attribute and the whole table. -/
theorem C12_double_toggle (tbl : List Bool) (a : ULOG_ATTRS) :
    disabled (ULOG_TOGGLE_ATTR (ULOG_TOGGLE_ATTR tbl a) a) a = disabled tbl a ∧
    ULOG_TOGGLE_ATTR (ULOG_TOGGLE_ATTR tbl a) a = tbl := by
  rw [toggle_toggle]
  exact ⟨rfl, rfl⟩

/-- C12 at a concrete input: `ULOG_TOGGLE_ATTR(LINE)` twice on the initial table. -/
theorem C12_double_toggle_witness :
    ULOG_TOGGLE_ATTR (ULOG_TOGGLE_ATTR ulog_attrs_disable .LINE) .LINE = ulog_attrs_disable ∧
    ULOG_TOGGLE_ATTR ulog_attrs_disable .LINE ≠ ulog_attrs_disable :=
  ⟨(C12_double_toggle ulog_attrs_disable .LINE).2, by decide⟩

/-- C13: line 161 passes the buffer followed by one newline to the stream and returns
what `fprintf` returns: when the write succeeds the stream receives that text and the
value is the length of the buffer plus one (the offset `j` plus one when some attribute
is visible); when the write fails the negative value of `fprintf` is the result. Line
161 is reached with a buffer whenever the segments fit the array. -/
theorem C13_return_value (dest : FILE) (env : Env) (tbl : List Bool) (level file func : CStr)
    (line : ℚ) (message : CStr) :
    (∀ b : LineBuf, ulog_buffer env tbl level file func line message = some b →
      cgcs_ulog_to dest env tbl level file func line message =
        some (fprintf dest (b.buffer ++ ['\n'])) ∧
      (dest.failure = none →
        cgcs_ulog_to dest env tbl level file func line message =
          some (⟨dest.received ++ (b.buffer ++ ['\n']), none⟩, (b.buffer.length : Int) + 1) ∧
        ((∃ a : ULOG_ATTRS, disabled tbl a = false) →
          b.buffer = concat_written (segments env tbl level file func line message) ∧
          cgcs_ulog_to dest env tbl level file func line message =
            some (⟨dest.received ++ (b.buffer ++ ['\n']), none⟩, (b.j : Int) + 1))) ∧
      (∀ k : Nat, dest.failure = some k →
        cgcs_ulog_to dest env tbl level file func line message = some (dest, Int.negSucc k) ∧
        Int.negSucc k < 0)) ∧
    (fits BUFFER_SIZE (concat_written (segments env tbl level file func line message)) →
      ∃ b : LineBuf, ulog_buffer env tbl level file func line message = some b) ∧
    (¬ fits BUFFER_SIZE (concat_written (segments env tbl level file func line message)) →
      ulog_buffer env tbl level file func line message = none ∧
      cgcs_ulog_to dest env tbl level file func line message = none) := by
  refine ⟨?_, ?_, ?_⟩
  · intro b hb
    have hto : cgcs_ulog_to dest env tbl level file func line message =
        some (fprintf dest (b.buffer ++ ['\n'])) := by
      unfold cgcs_ulog_to cgcs_ulog
      rw [hb]
      rfl
    refine ⟨hto, ?_, ?_⟩
    · intro hok
      have hr : cgcs_ulog_to dest env tbl level file func line message =
          some (⟨dest.received ++ (b.buffer ++ ['\n']), none⟩,
            (b.buffer.length : Int) + 1) := by
        rw [hto]
        simp [fprintf, hok]
      refine ⟨hr, ?_⟩
      intro hvis
      have hany := (segments_any_written env tbl level file func line message).2 hvis
      rw [ulog_buffer_eq, if_pos hany] at hb
      split at hb
      · have hb' := (Option.some.inj hb).symm
        subst hb'
        exact ⟨rfl, hr⟩
      · exact absurd hb (fun h => Option.noConfusion h)
    · intro k hk
      refine ⟨?_, Int.negSucc_lt_zero k⟩
      rw [hto]
      simp [fprintf, hk]
  · intro hfit
    by_cases hany : (segments env tbl level file func line message).any Option.isSome = true
    · unfold fits at hfit
      rw [ulog_buffer_eq, if_pos hany, if_pos hfit]
      exact ⟨_, rfl⟩
    · rw [ulog_buffer_eq, if_neg hany]
      exact ⟨_, rfl⟩
  · intro hno
    have h := ulog_buffer_of_overrun env tbl level file func line message hno
    refine ⟨h.1, ?_⟩
    unfold cgcs_ulog_to
    rw [h.2]
    rfl

/-- C13 at concrete inputs: a line of 106 characters returns 107 on a stream that
accepts it and -1 on a stream whose write reports -1. -/
theorem C13_return_value_witness :
    fits BUFFER_SIZE (concat_written (segments env0 ulog_attrs_disable "[LOG]".toList
      "foo.c".toList "main".toList 42 "hello 7".toList)) ∧
    (∃ b : LineBuf, ulog_buffer env0 ulog_attrs_disable "[LOG]".toList "foo.c".toList
      "main".toList 42 "hello 7".toList = some b ∧ b.buffer.length = 106 ∧ b.j = 106 ∧
      cgcs_ulog_to ⟨[], none⟩ env0 ulog_attrs_disable "[LOG]".toList "foo.c".toList
        "main".toList 42 "hello 7".toList = some (⟨b.buffer ++ ['\n'], none⟩, 107) ∧
      cgcs_ulog_to ⟨[], some 0⟩ env0 ulog_attrs_disable "[LOG]".toList "foo.c".toList
        "main".toList 42 "hello 7".toList = some (⟨[], some 0⟩, -1)) := by
  have hfit : fits BUFFER_SIZE (concat_written (segments env0 ulog_attrs_disable
      "[LOG]".toList "foo.c".toList "main".toList 42 "hello 7".toList)) := by
    unfold fits
    decide!
  obtain ⟨b, hb⟩ := (C13_return_value ⟨[], none⟩ env0 ulog_attrs_disable "[LOG]".toList
    "foo.c".toList "main".toList 42 "hello 7".toList).2.1 hfit
  have h1 := ((C13_return_value ⟨[], none⟩ env0 ulog_attrs_disable "[LOG]".toList
    "foo.c".toList "main".toList 42 "hello 7".toList).1 b hb).2.1 rfl
  have h2 := ((C13_return_value ⟨[], some 0⟩ env0 ulog_attrs_disable "[LOG]".toList
    "foo.c".toList "main".toList 42 "hello 7".toList).1 b hb).2.2 0 rfl
  have hbv := ulog_buffer_of_written env0 ulog_attrs_disable "[LOG]".toList "foo.c".toList
    "main".toList 42 "hello 7".toList ⟨.DATE, by decide⟩ hfit
  have hcw : (concat_written (segments env0 ulog_attrs_disable "[LOG]".toList
      "foo.c".toList "main".toList 42 "hello 7".toList)).length = 106 := by decide!
  rw [hb] at hbv
  have hbe := Option.some.inj hbv
  have hlen : b.buffer.length = 106 := by rw [hbe]; exact hcw
  have hj : b.j = 106 := by rw [hbe]; exact hcw
  refine ⟨hfit, b, hb, hlen, hj, ?_, h2.1⟩
  rw [h1.1, hlen]
  simp

/-- C15, at the state reached by toggling each of the seven attributes once: no
statement writes to `buffer` (the offset stays 0 and the buffer holds what the stack
held), so the text emitted is that indeterminate content and a newline (`junk` and a
newline here), not just the newline. -/
theorem C15_buffer_not_initialised :
    [ULOG_ATTRS.DATE, .TIME, .LEVEL, .FILENAME, .LINE, .FUNCTION, .MESSAGE].foldl
      ULOG_TOGGLE_ATTR ulog_attrs_disable = all_disabled ∧
    (∀ (env : Env) (level file func : CStr) (line : ℚ) (message : CStr),
      ulog_buffer env all_disabled level file func line message = some ⟨env.stack, 0⟩) ∧
    cgcs_ulog_to ⟨[], none⟩ env_junk all_disabled "[LOG]".toList "foo.c".toList
      "main".toList 42 "hello 7".toList = some (⟨"junk\n".toList, none⟩, 5) ∧
    cgcs_ulog_to ⟨[], none⟩ env_junk all_disabled "[LOG]".toList "foo.c".toList
      "main".toList 42 "hello 7".toList ≠ some (⟨['\n'], none⟩, 1) := by
  have hs : ∀ (env : Env) (level file func : CStr) (line : ℚ) (message : CStr),
      segments env all_disabled level file func line message
        = [none, none, none, none, none, none, none] := by
    intro env level file func line message
    simp [segments, date_segment, time_segment, level_segment, origin_segment,
      function_segment, separator_segment, message_segment, disabled, all_disabled,
      ULOG_ATTRS.toNat]
  have hb : ∀ (env : Env) (level file func : CStr) (line : ℚ) (message : CStr),
      ulog_buffer env all_disabled level file func line message = some ⟨env.stack, 0⟩ := by
    intro env level file func line message
    unfold ulog_buffer
    rw [hs]
    rfl
  have hr : cgcs_ulog_to ⟨[], none⟩ env_junk all_disabled "[LOG]".toList "foo.c".toList
      "main".toList 42 "hello 7".toList = some (⟨"junk\n".toList, none⟩, 5) := by
    unfold cgcs_ulog_to cgcs_ulog
    rw [hb]
    rfl
  refine ⟨by decide, hb, hr, ?_⟩
  rw [hr]
  intro h
  have h2 : (5 : Int) = 1 := congrArg Prod.snd (Option.some.inj h)
  exact absurd h2 (by decide)

/-- C16, at every state with FUNCTION visible and MESSAGE disabled: the function
segment is `KCYN` and the function name, nothing resets the style after it, and the
last style code of the line (any line that fits `buffer`) is `KCYN`, not `KNRM`. -/
theorem C16_function_style_not_reset :
    (∀ (env : Env) (tbl : List Bool) (level file func : CStr) (line : ℚ) (message : CStr),
      disabled tbl .FUNCTION = false → disabled tbl .MESSAGE = true → '\x1B' ∉ func →
      fits BUFFER_SIZE (concat_written (segments env tbl level file func line message)) →
      ∃ text : CStr, cgcs_ulog env tbl level file func line message = some text ∧
        last_style_code text = some KCYN) ∧
    KCYN ≠ KNRM ∧
    LOG env0 message_disabled "foo.c".toList "main".toList 28 "test".toList =
      some ("\x1B[0;2mDec  9 2020\x1B[0;0m \x1B[0;2m12:00:00\x1B[0;0m " ++
        "\x1B[1;36m[LOG]\x1B[0;0m [foo.c:28] \x1B[0;36mmain\n").toList ∧
    last_style_code ("\x1B[0;2mDec  9 2020\x1B[0;0m \x1B[0;2m12:00:00\x1B[0;0m " ++
        "\x1B[1;36m[LOG]\x1B[0;0m [foo.c:28] \x1B[0;36mmain\n").toList = some KCYN := by
  have main : ∀ (env : Env) (tbl : List Bool) (level file func : CStr) (line : ℚ)
      (message : CStr), disabled tbl .FUNCTION = false → disabled tbl .MESSAGE = true →
      '\x1B' ∉ func →
      fits BUFFER_SIZE (concat_written (segments env tbl level file func line message)) →
      ∃ text : CStr, cgcs_ulog env tbl level file func line message = some text ∧
        last_style_code text = some KCYN := by
    intro env tbl level file func line message hF hM hesc hfit
    refine ⟨_, cgcs_ulog_of_visible env tbl level file func line message ⟨.FUNCTION, hF⟩ hfit,
      ?_⟩
    have hc : concat_written (segments env tbl level file func line message) =
        ((date_segment env tbl).getD [] ++ (time_segment env tbl).getD [] ++
        (level_segment tbl level).getD [] ++ (origin_segment env tbl file line).getD []) ++
        (KCYN ++ func) := by
      unfold segments
      rw [concat_written_seven]
      simp [function_segment, separator_segment, message_segment, hF, hM]
    rw [hc]
    exact last_style_code_KCYN _ func hesc
  exact ⟨main, by decide, by decide!, by decide⟩

/-- C17, at a message that fits the array `message`: a message of at least 4084
characters makes the message segment alone longer than 4095 characters, so the
segments do not fit `buffer` and a write runs past its end; with a message of 4095
characters `a` every intermediate array holds its segment and the segments have 4194
characters. -/
theorem C17_line_exceeds_buffer :
    (∀ (env : Env) (tbl : List Bool) (level file func : CStr) (line : ℚ) (message : CStr),
      disabled tbl .MESSAGE = false → 4084 ≤ message.length →
      ¬ fits BUFFER_SIZE (concat_written (segments env tbl level file func line message)) ∧
      ulog_buffer env tbl level file func line message = none) ∧
    fields_fit env0 ulog_attrs_disable "[LOG]".toList "foo.c".toList "main".toList 42
      (List.replicate 4095 'a') ∧
    (concat_written (segments env0 ulog_attrs_disable "[LOG]".toList "foo.c".toList
      "main".toList 42 (List.replicate 4095 'a'))).length = 4194 ∧
    ulog_buffer env0 ulog_attrs_disable "[LOG]".toList "foo.c".toList "main".toList 42
      (List.replicate 4095 'a') = none := by
  have main : ∀ (env : Env) (tbl : List Bool) (level file func : CStr) (line : ℚ)
      (message : CStr), disabled tbl .MESSAGE = false → 4084 ≤ message.length →
      ¬ fits BUFFER_SIZE (concat_written (segments env tbl level file func line message)) ∧
      ulog_buffer env tbl level file func line message = none := by
    intro env tbl level file func line message hM hlen
    have hno := not_fits_of_long_message env tbl level file func line message hM hlen
    exact ⟨hno, (ulog_buffer_of_overrun env tbl level file func line message hno).1⟩
  refine ⟨main, ?_, ?_, ?_⟩
  · unfold fields_fit fits FIELD_SIZE BUFFER_SIZE
    refine ⟨by decide, by decide, by decide, by decide!, by decide, ?_⟩
    rw [List.length_replicate]
  · unfold segments
    rw [concat_written_seven]
    have ho : origin_segment env0 ulog_attrs_disable "foo.c".toList 42
        = some "[foo.c:42] ".toList := by decide!
    have hm : message_segment ulog_attrs_disable (List.replicate 4095 'a')
        = some (KNRM_b ++ List.replicate 4095 'a' ++ KNRM) := by
      unfold message_segment
      rw [if_pos (by decide)]
    have hd : date_segment env0 ulog_attrs_disable
        = some "\x1B[0;2mDec  9 2020\x1B[0;0m ".toList := by decide
    have ht : time_segment env0 ulog_attrs_disable
        = some "\x1B[0;2m12:00:00\x1B[0;0m ".toList := by decide
    have hl : level_segment ulog_attrs_disable "[LOG]".toList
        = some "\x1B[1;36m[LOG]\x1B[0;0m ".toList := by decide
    have hf : function_segment ulog_attrs_disable "main".toList
        = some "\x1B[0;36mmain".toList := by decide
    have hsep : separator_segment ulog_attrs_disable = some [' '] := by decide
    have h1 : KNRM_b.length = 6 := by decide
    have h2 : KNRM.length = 6 := by decide
    rw [ho, hm, hd, ht, hl, hf, hsep]
    simp only [Option.getD_some, List.length_append, List.length_replicate, h1, h2]
    rfl
  · exact (main env0 ulog_attrs_disable _ _ _ _ (List.replicate 4095 'a') (by decide)
      (by rw [List.length_replicate]; decide)).2

/-- C18: with FILENAME disabled, two origin strings that both start with `$` or both do
not give the same line, all other arguments and the table being equal. -/
theorem C18_origin_string_only_through_dollar (env : Env) (tbl : List Bool)
    (level file file' func : CStr) (line : ℚ) (message : CStr)
    (hF : disabled tbl .FILENAME = true) (hc : is_currency file = is_currency file') :
    cgcs_ulog env tbl level file func line message =
      cgcs_ulog env tbl level file' func line message := by
  have ho : origin_segment env tbl file line = origin_segment env tbl file' line := by
    unfold origin_segment is_integer
    simp [hF, hc]
  unfold cgcs_ulog ulog_buffer segments
  rw [ho]

/-- C18 at concrete inputs: `foo.c` and `bar.h` give the same line; so do `$a` and `$`. -/
theorem C18_origin_string_only_through_dollar_witness :
    disabled [false, false, false, true, false, false, false] .FILENAME = true ∧
    is_currency "foo.c".toList = is_currency "bar.h".toList ∧
    cgcs_ulog env0 [false, false, false, true, false, false, false] "[LOG]".toList
      "foo.c".toList "main".toList 42 "hello 7".toList =
    cgcs_ulog env0 [false, false, false, true, false, false, false] "[LOG]".toList
      "bar.h".toList "main".toList 42 "hello 7".toList ∧
    cgcs_ulog env0 [false, false, false, true, false, false, false] "[LOG]".toList
      "$a".toList "main".toList 19.5 "hello 7".toList =
    cgcs_ulog env0 [false, false, false, true, false, false, false] "[LOG]".toList
      "$".toList "main".toList 19.5 "hello 7".toList :=
  ⟨by decide, by decide,
    C18_origin_string_only_through_dollar env0 _ _ _ _ _ _ _ (by decide) (by decide),
    C18_origin_string_only_through_dollar env0 _ _ _ _ _ _ _ (by decide) (by decide)⟩

/-- C19: on a table of 7 flags `ULOG_TOGGLE_ATTR(a)` negates the flag of `a`, leaves
the flags of the other six attributes unchanged and keeps the 7 positions; from the
initial table, in which everything is visible, one toggle disables exactly `a`. -/
theorem C19_toggle_frame (tbl : List Bool) (a : ULOG_ATTRS)
    (hlen : tbl.length = UTILS_LOG_ATTRS_COUNT) :
    disabled (ULOG_TOGGLE_ATTR tbl a) a = !disabled tbl a ∧
    (∀ b : ULOG_ATTRS, b ≠ a → disabled (ULOG_TOGGLE_ATTR tbl a) b = disabled tbl b) ∧
    (ULOG_TOGGLE_ATTR tbl a).length = UTILS_LOG_ATTRS_COUNT ∧
    ulog_attrs_disable.length = UTILS_LOG_ATTRS_COUNT ∧
    (∀ b : ULOG_ATTRS, disabled ulog_attrs_disable b = false) ∧
    (∀ b : ULOG_ATTRS, disabled (ULOG_TOGGLE_ATTR ulog_attrs_disable a) b = true ↔ b = a) := by
  have hinit : ∀ b : ULOG_ATTRS, disabled ulog_attrs_disable b = false := fun b => by
    cases b <;> rfl
  refine ⟨toggle_same tbl a hlen, fun b hb => toggle_other tbl hb,
    by rw [toggle_length, hlen], rfl, hinit, ?_⟩
  intro b
  by_cases hb : b = a
  · subst hb
    rw [toggle_same ulog_attrs_disable b rfl, hinit]
    simp
  · rw [toggle_other _ hb, hinit]
    simp [hb]

/-- C19 at a concrete input: `ULOG_TOGGLE_ATTR(LINE)` on the initial table. -/
theorem C19_toggle_frame_witness :
    ulog_attrs_disable.length = UTILS_LOG_ATTRS_COUNT ∧
    ULOG_TOGGLE_ATTR ulog_attrs_disable .LINE
      = [false, false, false, false, true, false, false] ∧
    disabled (ULOG_TOGGLE_ATTR ulog_attrs_disable .LINE) .LINE = true ∧
    disabled (ULOG_TOGGLE_ATTR ulog_attrs_disable .LINE) .FILENAME = false := by
  have h := C19_toggle_frame ulog_attrs_disable .LINE rfl
  refine ⟨rfl, by decide, ?_, ?_⟩
  · rw [h.1]; rfl
  · rw [h.2.1 .FILENAME (by decide)]; rfl

end CgcsUlog
